import Mathlib

/-!
Shallow embedding of the PULLING application (app.py): the Excel
ingestion / normalization / reconciliation pipeline (`process_excel`) and the
greedy three-round assignment engine (route `assign`), together with theorems
checking the natural-language specification against this embedding.

Numbers are modelled as rationals (`ℚ`); cell values as an explicit sum type
(`CellVal`) distinguishing null, numeric and string cells, mirroring the
pandas semantics the code relies on (`NaN`-null, numeric comparison with `0`,
string cells never numerically equal to `0`).  External library functions
(geopy's `geodesic`, difflib's `SequenceMatcher.ratio`) are parameters of the
embedding: the code only composes their results.
-/

namespace PullingApp

/-- A cell value as pandas sees it: missing (`None`/`NaN`), a number, or a
string. -/
inductive CellVal where
  | null : CellVal
  | num : ℚ → CellVal
  | str : String → CellVal
deriving DecidableEq

/-- Python's `str.strip()`: drop leading and trailing whitespace
(structural implementation over the character list). -/
def strTrim (s : String) : String :=
  ⟨(((s.data.dropWhile Char.isWhitespace).reverse).dropWhile Char.isWhitespace).reverse⟩

/-- Python's `str.upper()` (ASCII repertoire). -/
def strUpper (s : String) : String :=
  ⟨s.data.map Char.toUpper⟩

/-- Python's `str.lower()` (ASCII repertoire). -/
def strLower (s : String) : String :=
  ⟨s.data.map Char.toLower⟩

/-- Strip accents the way `unicodedata.normalize('NFKD', ·)` followed by an
ASCII re-encoding does, for the character repertoire of the data
(lower-cased Spanish text; upper-case variants are included because Lean's
`Char.toLower` lowers only ASCII while Python lowers accented letters). -/
def deaccent (c : Char) : Char :=
  if c = 'á' ∨ c = 'Á' then 'a'
  else if c = 'é' ∨ c = 'É' then 'e'
  else if c = 'í' ∨ c = 'Í' then 'i'
  else if c = 'ó' ∨ c = 'Ó' then 'o'
  else if c = 'ú' ∨ c = 'Ú' ∨ c = 'ü' ∨ c = 'Ü' then 'u'
  else if c = 'ñ' ∨ c = 'Ñ' then 'n'
  else c

/-- Collapse every run of whitespace to a single space (`re.sub(r'\s+', ' ', ·)`). -/
def collapseWS : List Char → List Char
  | [] => []
  | [c] => [if c.isWhitespace then ' ' else c]
  | c1 :: c2 :: t =>
    if c1.isWhitespace && c2.isWhitespace then collapseWS (c2 :: t)
    else (if c1.isWhitespace then ' ' else c1) :: collapseWS (c2 :: t)

/-- `normalize_text` from app.py: strip, lower-case, drop accents, collapse
whitespace. -/
def normalize_text (s : String) : String :=
  ⟨collapseWS (((strTrim s).data.map Char.toLower).map deaccent)⟩

/-- Substring test on character lists (Python's `in` on strings). -/
def containsSub (needle : List Char) : List Char → Bool
  | [] => needle.isEmpty
  | c :: t => needle.isPrefixOf (c :: t) || containsSub needle t

/-- `extract_number` from app.py: the first maximal digit run of the string
(`re.search(r'(\d+)', s)`), `""` when the string has no digit. -/
def extract_number (s : String) : String :=
  ⟨(s.toList.dropWhile (fun c => ¬ c.isDigit)).takeWhile Char.isDigit⟩

/-- `extract_letters` from app.py: `re.findall(r'[A-Z]+', s.upper())` joined,
i.e. the subsequence of upper-cased letters of the string. -/
def extract_letters (s : String) : String :=
  ⟨(s.toList.map Char.toUpper).filter (fun c => decide ('A' ≤ c ∧ c ≤ 'Z'))⟩

/-- The candidate filter of `custom_normalize_pozo`: registry entries
(stripped) whose first digit run equals the record's digit run, the record's
digit run being required to be non-empty (line `if cand_number == user_number
and user_number != ""`).  `up` is the already stripped record identifier. -/
def pozoCandidates (coord_list : List String) (up : String) : List String :=
  (coord_list.map strTrim).filter
    (fun cand => decide (extract_number cand = extract_number up
      ∧ extract_number up ≠ ""))

/-- The best-candidate loop of `custom_normalize_pozo`: fold carrying
`(best_candidate, best_ratio)`, starting from `(None, 0)`, updating on a
strictly larger similarity. `sim` is difflib's `SequenceMatcher(None, a, b)
.ratio()`, an external-library parameter of the embedding. -/
def bestLetterMatch (sim : String → String → ℚ) (user_letters : String)
    (candidates : List String) : Option String × ℚ :=
  candidates.foldl
    (fun acc cand =>
      if acc.2 < sim user_letters (extract_letters cand) then
        (some cand, sim user_letters (extract_letters cand))
      else acc)
    (none, 0)

/-- `custom_normalize_pozo` from app.py with `letter_threshold = 0.5` (the
only threshold the code uses).  The `none` fallback of the final `match` is
unreachable: `best_ratio ≥ 0.5 > 0` forces a candidate to have been chosen. -/
def custom_normalize_pozo (sim : String → String → ℚ) (coord_list : List String)
    (user_pozo : String) : String :=
  let up := strTrim user_pozo
  let user_letters := extract_letters up
  match pozoCandidates coord_list up with
  | [] => up
  | [c] => c
  | c1 :: c2 :: rest =>
    let best := bestLetterMatch sim user_letters (c1 :: c2 :: rest)
    if (1 : ℚ)/2 ≤ best.2 then
      match best.1 with
      | some c => c
      | none => up
    else up

/-- The exact-match step of the reconciler (the `POZO_TMP` merge): the first
registry identifier whose stripped upper-cased form equals the record's. -/
def exactMatch (registry : List String) (p : String) : Option String :=
  registry.find? (fun c => strUpper (strTrim c) = strUpper (strTrim p))

/-- `apply_normalization` from app.py: adopt the registry spelling on an
exact (strip + upper-case) match, otherwise run `custom_normalize_pozo`. -/
def apply_normalization (sim : String → String → ℚ) (registry : List String)
    (p : String) : String :=
  match exactMatch registry p with
  | some c => c
  | none => custom_normalize_pozo sim registry p

/-! ### The ingestion / filter / reconciliation / geo-enrichment pipeline
(`process_excel` in app.py).

A `SheetRow` carries the presentation metadata the loop over
`ws.iter_rows` reads (fill foreground colors, given as upper-caseable ARGB
strings when `fgColor.type == "rgb"`) together with the cell values of the
columns the later stages use, already keyed by their canonical header name
(the `rename` step of app.py maps the loosely spelled headers onto these;
the embedding assumes the expected columns are present, as every claim
does). -/

/-- One worksheet data row with its style metadata. -/
structure SheetRow where
  obsColor : Option String
  pozoColor : Option String
  activo : CellVal
  pozo : CellVal
  x : CellVal
  y : CellVal
  perdida : CellVal
  plan : CellVal
  planHs : CellVal
  equipo : CellVal
  bateria : CellVal
deriving DecidableEq

/-- A record of the in-memory DataFrame `df_main`: the row payload plus the
`CELESTE` flag. -/
structure Rec where
  celeste : Bool
  activo : CellVal
  pozo : CellVal
  x : CellVal
  y : CellVal
  perdida : CellVal
  plan : CellVal
  planHs : CellVal
  equipo : CellVal
  bateria : CellVal
deriving DecidableEq

/-- Discard rule 1 of the ingestion loop: the remarks cell's fill foreground
color is the reserved red `FFFF0000` (checked only when an
`observac`-matching header was found). -/
def isRedObs (r : SheetRow) : Bool :=
  match r.obsColor with
  | some c => strUpper c = "FFFF0000"
  | none => false

/-- Discard rule 2 of the ingestion loop: the equipment cell is truthy and
its lower-cased text contains `b2` or `b3`.  A numeric or null cell never
matches (`str(value)` of a number contains no letter). -/
def equipoB2B3 (r : SheetRow) : Bool :=
  match r.equipo with
  | CellVal.str s =>
    s ≠ "" && (containsSub ['b', '2'] (strLower s).data
      || containsSub ['b', '3'] (strLower s).data)
  | _ => false

/-- Whether the ingestion loop skips the row (`continue`).  `hasObs` and
`hasEquipo` say whether an `observac` / `equipo` header was located. -/
def discardRow (hasObs hasEquipo : Bool) (r : SheetRow) : Bool :=
  (hasObs && isRedObs r) || (hasEquipo && equipoB2B3 r)

/-- The `CELESTE` highlight flag: the well-id cell's fill foreground color is
`FF00FFFF` (checked only when a `pozo` header was located). -/
def celesteFlag (hasPozo : Bool) (r : SheetRow) : Bool :=
  hasPozo && (match r.pozoColor with
    | some c => decide (strUpper c = "FF00FFFF")
    | none => false)

/-- Build the `row_data` record of a surviving row. -/
def toRec (hasPozo : Bool) (r : SheetRow) : Rec :=
  { celeste := celesteFlag hasPozo r
    activo := r.activo, pozo := r.pozo, x := r.x, y := r.y
    perdida := r.perdida, plan := r.plan, planHs := r.planHs
    equipo := r.equipo, bateria := r.bateria }

/-- The rows the ingestion loop keeps, in worksheet order. -/
def survivingRows (hasObs hasEquipo : Bool) (rows : List SheetRow) : List SheetRow :=
  rows.filter (fun r => !(discardRow hasObs hasEquipo r))

/-- Stage 1 output: `df_main` as first built from `data`. -/
def stage_ingest (hasObs hasEquipo hasPozo : Bool) (rows : List SheetRow) : List Rec :=
  (survivingRows hasObs hasEquipo rows).map (toRec hasPozo)

/-- Digits-to-number helper for the decimal parser. -/
def digitsToNat (l : List Char) : Nat :=
  l.foldl (fun n c => 10 * n + (c.toNat - 48)) 0

/-- `pd.to_numeric(·, errors="coerce")` on a cell, for the decimal numeral
forms the data uses: an optional sign, an integer part and an optional
fractional part.  Anything else coerces to `NaN` (`none`). -/
def parseRat (s : String) : Option ℚ :=
  let l := (strTrim s).data
  let signed : ℚ × List Char :=
    match l with
    | '-' :: t => (-1, t)
    | '+' :: t => (1, t)
    | _ => (1, l)
  let intPart := signed.2.takeWhile Char.isDigit
  let rest := signed.2.dropWhile Char.isDigit
  match rest with
  | [] =>
    if intPart.isEmpty then none
    else some (signed.1 * (digitsToNat intPart : ℚ))
  | '.' :: frac =>
    if frac.all Char.isDigit && !(intPart.isEmpty && frac.isEmpty) then
      some (signed.1 * ((digitsToNat intPart : ℚ)
        + (digitsToNat frac : ℚ) / ((10 : ℚ) ^ frac.length)))
    else none
  | _ => none

/-- Numeric coercion of a cell (`pd.to_numeric` value semantics). -/
def toNumeric : CellVal → Option ℚ
  | CellVal.null => none
  | CellVal.num q => some q
  | CellVal.str s => parseRat s

/-- Coerce the `Pérdida [m3/d]` column of a record. -/
def coerceLoss (r : Rec) : Rec :=
  { r with perdida :=
      match toNumeric r.perdida with
      | some q => CellVal.num q
      | none => CellVal.null }

/-- Sort key of `sort_values(by="Pérdida [m3/d]", ascending=False)`: larger
losses first, nulls (`NaN`) last. -/
def lossGE (a b : Rec) : Prop :=
  match a.perdida, b.perdida with
  | CellVal.num p, CellVal.num q => q ≤ p
  | CellVal.num _, _ => True
  | _, CellVal.num _ => False
  | _, _ => True

instance : DecidableRel lossGE := fun a b => by
  unfold lossGE
  cases a.perdida <;> cases b.perdida <;> infer_instance

instance : IsTotal Rec lossGE where
  total a b := by
    unfold lossGE
    cases a.perdida <;> cases b.perdida <;> simp
    exact le_total _ _

instance : IsTrans Rec lossGE where
  trans a b c := by
    unfold lossGE
    cases a.perdida <;> cases b.perdida <;> cases c.perdida <;> simp
    exact fun h1 h2 => le_trans h2 h1

/-- `df_main` after numeric coercion and the descending sort on loss
(pandas' sort is modelled by a stable sort; the claims do not depend on the
order of ties). -/
def stage_sorted (hasObs hasEquipo hasPozo : Bool) (rows : List SheetRow) : List Rec :=
  List.insertionSort lossGE ((stage_ingest hasObs hasEquipo hasPozo rows).map coerceLoss)

/-- `preview_df = df_main.head(20)`, taken right after the sort. -/
def stage_preview (hasObs hasEquipo hasPozo : Bool) (rows : List SheetRow) : List Rec :=
  (stage_sorted hasObs hasEquipo hasPozo rows).take 20

/-- `df_main["Plan [Si/No]"] == 1`: numeric equality with `1`; strings and
nulls never compare equal. -/
def eqOne : CellVal → Bool
  | CellVal.num q => decide (q = 1)
  | _ => false

/-- Not null (pandas `notnull`): only a `NaN`/`None` cell is null. -/
def notNull : CellVal → Bool
  | CellVal.null => false
  | _ => true

/-- `≠ 0` in the pandas elementwise sense: only a numeric cell equal to `0`
fails; a string (even `"0"`) never equals the number `0`. -/
def neZero : CellVal → Bool
  | CellVal.num q => decide (q ≠ 0)
  | _ => true

/-- The critical-column filter: the per-column loop
`df_main = df_main[df_main[col].notnull()]; df_main = df_main[df_main[col] != 0]`
over `["Activo", "POZO", "X", "Y", "Pérdida [m3/d]", "Plan [Si/No]",
"Plan [Hs/INT]", "EQUIPO"]` composes into one conjunction. -/
def criticalOk (r : Rec) : Bool :=
  (notNull r.activo && neZero r.activo) && (notNull r.pozo && neZero r.pozo)
    && (notNull r.x && neZero r.x) && (notNull r.y && neZero r.y)
    && (notNull r.perdida && neZero r.perdida) && (notNull r.plan && neZero r.plan)
    && (notNull r.planHs && neZero r.planHs) && (notNull r.equipo && neZero r.equipo)

/-- The unwanted-equipment patterns of app.py. -/
def patrones : List String := ["fb", "pesado", "z inyector", "z recupero"]

/-- `no_contiene` from app.py: non-strings are kept; a string is kept when
its normalized text contains none of the patterns. -/
def no_contiene (v : CellVal) : Bool :=
  match v with
  | CellVal.str s => !(patrones.any (fun pat => containsSub pat.toList (normalize_text s).toList))
  | _ => true

/-- `df_main` after the plan filter, the critical-column filter and the
equipment-keyword filter, in the order app.py applies them. -/
def stage_filtered (hasObs hasEquipo hasPozo : Bool) (rows : List SheetRow) : List Rec :=
  (((stage_sorted hasObs hasEquipo hasPozo rows).filter (fun r => eqOne r.plan)).filter
    criticalOk).filter (fun r => no_contiene r.equipo)

/-- One row of the coordinates workbook `coordenadas.xlsx`, with
`GEO_LATITUDE`/`GEO_LONGITUDE` already parsed from their comma-decimal
strings. -/
structure CoordRow where
  pozo : String
  lat : ℚ
  lon : ℚ
deriving DecidableEq

/-- The `POZO` normalization step applied to one record
(`apply_normalization` row-wise; the identifiers of the data are strings,
and non-string identifiers pass through `custom_normalize_pozo` unchanged). -/
def reconcileRec (sim : String → String → ℚ) (registry : List String) (r : Rec) : Rec :=
  { r with pozo :=
      match r.pozo with
      | CellVal.str s => CellVal.str (apply_normalization sim registry s)
      | v => v }

/-- `df_main` after the `POZO` normalization against the coordinates
registry. -/
def stage_reconciled (sim : String → String → ℚ) (hasObs hasEquipo hasPozo : Bool)
    (rows : List SheetRow) (coords : List CoordRow) : List Rec :=
  (stage_filtered hasObs hasEquipo hasPozo rows).map
    (reconcileRec sim (coords.map CoordRow.pozo))

/-- First-occurrence deduplication (pandas `unique`). -/
def uniqueFirstAux {α} [DecidableEq α] : List α → List α → List α
  | _, [] => []
  | seen, a :: t =>
    if a ∈ seen then uniqueFirstAux seen t else a :: uniqueFirstAux (a :: seen) t

/-- First-occurrence deduplication (pandas `unique`). -/
def uniqueFirst {α} [DecidableEq α] (l : List α) : List α :=
  uniqueFirstAux [] l

/-- `pozos_celestes`: the distinct (normalized) well ids of the rows whose
well cell was highlighted. -/
def stage_celestes (sim : String → String → ℚ) (hasObs hasEquipo hasPozo : Bool)
    (rows : List SheetRow) (coords : List CoordRow) : List CellVal :=
  uniqueFirst (((stage_reconciled sim hasObs hasEquipo hasPozo rows coords).filter
    Rec.celeste).map Rec.pozo)

/-- The left merge with the coordinates table on `POZO`: every matching
coordinate row yields one output row; a record without a match gets null
coordinates. -/
def mergeGeo (l : List Rec) (coords : List CoordRow) : List (Rec × Option (ℚ × ℚ)) :=
  l.flatMap (fun r =>
    match coords.filter (fun c => decide (r.pozo = CellVal.str c.pozo)) with
    | [] => [(r, none)]
    | c :: cs => (c :: cs).map (fun c0 => (r, some (c0.lat, c0.lon))))

/-- `missing_pozos`: the distinct well ids whose merged coordinates are
null; they are surfaced to the user via `flash`. -/
def stage_missing (sim : String → String → ℚ) (hasObs hasEquipo hasPozo : Bool)
    (rows : List SheetRow) (coords : List CoordRow) : List CellVal :=
  uniqueFirst (((mergeGeo (stage_reconciled sim hasObs hasEquipo hasPozo rows coords)
    coords).filter (fun x => x.2.isNone)).map (fun x => x.1.pozo))

/-- A record of the finalized dataset, in the `orden_final` column order. -/
structure FinalRec where
  pozo : CellVal
  neta : CellVal
  prodDt : String
  rubro : String
  lat : ℚ
  lon : ℚ
  bateria : CellVal
  zona : CellVal
  tiempoPlan : CellVal
deriving DecidableEq

/-- Projection of one merged row with coordinates onto the final schema
(`PROD_DT` is the run date, `RUBRO` the fixed constant). -/
def mkFinal (date : String) (r : Rec) (la lo : ℚ) : FinalRec :=
  { pozo := r.pozo, neta := r.perdida, prodDt := date
    rubro := "ESPERA DE TRACTOR", lat := la, lon := lo
    bateria := r.bateria, zona := r.activo, tiempoPlan := r.planHs }

/-- The finalized dataset: rows lacking coordinates are dropped (the
`dropna` runs only when some id is missing, but when none is missing there
is nothing to drop), and the remaining rows are projected and stamped. -/
def stage_final (sim : String → String → ℚ) (hasObs hasEquipo hasPozo : Bool)
    (date : String) (rows : List SheetRow) (coords : List CoordRow) : List FinalRec :=
  let merged := mergeGeo (stage_reconciled sim hasObs hasEquipo hasPozo rows coords) coords
  let missing := stage_missing sim hasObs hasEquipo hasPozo rows coords
  let kept := if missing.isEmpty then merged else merged.filter (fun x => x.2.isSome)
  kept.filterMap (fun x =>
    match x.2 with
    | some (la, lo) => some (mkFinal date x.1 la lo)
    | none => none)

/-- `process_excel`: the full pipeline.  Returns the finalized dataset, the
preview, the highlighted well ids, and the missing-coordinates diagnostic
(the `flash` message's id list). -/
def process_excel (sim : String → String → ℚ) (hasObs hasEquipo hasPozo : Bool)
    (date : String) (rows : List SheetRow) (coords : List CoordRow) :
    List FinalRec × List Rec × List CellVal × List CellVal :=
  (stage_final sim hasObs hasEquipo hasPozo date rows coords,
   stage_preview hasObs hasEquipo hasPozo rows,
   stage_celestes sim hasObs hasEquipo hasPozo rows coords,
   stage_missing sim hasObs hasEquipo hasPozo rows coords)

/-! ### The greedy assignment engine (route `assign` in app.py).

`df` is the finalized dataset as the engine reads it (well id, net output,
planned time, latitude, longitude); `geo` is geopy's `geodesic(...)
.kilometers`, an external-library parameter taking the two coordinate
pairs. -/

/-- One row of the finalized dataset as the assignment engine reads it. -/
structure WellRec where
  pozo : String
  neta : ℚ
  tiempo : ℚ
  lat : ℚ
  lon : ℚ
deriving DecidableEq

/-- A geodesic-distance function (external library parameter). -/
abbrev GeoFn := ℚ × ℚ → ℚ × ℚ → ℚ

/-- An assignment triple `(pozo, coeficiente, distancia)`. -/
abbrev Cand := String × ℚ × ℚ

/-- A service unit: dict key `"Pulling i"`, its selected well, and its
remaining time. -/
structure Pulling where
  name : String
  pozo : String
  tiempoRestante : ℚ
deriving DecidableEq

/-- The `pulling_asignaciones` dict, in insertion order. -/
abbrev AsigMap := List (String × List Cand)

/-- The engine state while a round runs: the assignment dict, the occupied
set `pozos_ocupados`, and the round-local pool `no_asignados`. -/
abbrev EngState := AsigMap × List String × List String

/-- `df[df["POZO"] == p].iloc[0]` as an optional first-row selection: `none`
models the `IndexError` of an unguarded `.iloc[0]` on an empty selection. -/
def findPozo (df : List WellRec) (p : String) : Option WellRec :=
  df.find? (fun r => r.pozo = p)

/-- `calcular_coeficiente` from app.py: great-circle distance between the
reference and candidate wells, and `neta / (tiempo_plan + 0.5 * dist)`
(`0` when the denominator is zero).  `none` models the `IndexError` raised
when either well has no row in `df`. -/
def calcular_coeficiente (df : List WellRec) (geo : GeoFn) (ref cand : String) :
    Option (ℚ × ℚ) :=
  match findPozo df ref, findPozo df cand with
  | some rref, some rcand =>
    let dist := geo (rref.lat, rref.lon) (rcand.lat, rcand.lon)
    let denom := rcand.tiempo + (1 : ℚ)/2 * dist
    some (if denom ≠ 0 then rcand.neta / denom else 0, dist)
  | _, _ => none

/-- Dict read `pulling_asignaciones[name]` (with `.get(name, [])` default,
as the matrix stage reads it). -/
def lookupAsig (m : AsigMap) (n : String) : List Cand :=
  match m.find? (fun e => e.1 = n) with
  | some e => e.2
  | none => []

/-- Dict write: append one assignment to the entry of `n`. -/
def updateAsig (m : AsigMap) (n : String) (best : Cand) : AsigMap :=
  m.map (fun e => if e.1 = n then (e.1, e.2 ++ [best]) else e)

/-- The unit's reference well: the last assigned well, or its own selected
well when it has no assignment yet. -/
def refWell (m : AsigMap) (u : Pulling) : String :=
  match (lookupAsig m u.name).getLast? with
  | some c => c.1
  | none => u.pozo

/-- The candidate list a unit ranks: one `(pozo, coef, dist)` triple per
pool well, `none` when any per-candidate computation raises. -/
def candsOf (df : List WellRec) (geo : GeoFn) (ref : String) (pool : List String) :
    Option (List Cand) :=
  pool.mapM (fun p => (calcular_coeficiente df geo ref p).map (fun cd => (p, cd.1, cd.2)))

/-- The ranking order `key=lambda x: (-x[1], x[2])`: coefficient descending,
ties by distance ascending. -/
def candLE (a b : Cand) : Prop :=
  b.2.1 < a.2.1 ∨ (a.2.1 = b.2.1 ∧ a.2.2 ≤ b.2.2)

instance : DecidableRel candLE := fun a b => by
  unfold candLE
  infer_instance

instance : IsTotal Cand candLE where
  total a b := by
    unfold candLE
    rcases lt_trichotomy a.2.1 b.2.1 with h | h | h
    · exact Or.inr (Or.inl h)
    · rcases le_total a.2.2 b.2.2 with h2 | h2
      · exact Or.inl (Or.inr ⟨h, h2⟩)
      · exact Or.inr (Or.inr ⟨h.symm, h2⟩)
    · exact Or.inl (Or.inl h)

instance : IsTrans Cand candLE where
  trans a b c hab hbc := by
    unfold candLE at *
    rcases hab with h1 | ⟨h1, h1d⟩ <;> rcases hbc with h2 | ⟨h2, h2d⟩
    · exact Or.inl (h2.trans h1)
    · exact Or.inl (lt_of_eq_of_lt h2.symm h1)
    · exact Or.inl (lt_of_lt_of_eq h2 h1.symm)
    · exact Or.inr ⟨h1.trans h2, h1d.trans h2d⟩

/-- Processing of one unit inside `asignar_pozos`: build the candidate
list, sort it, claim the top candidate (append to the unit's history, add
to `pozos_ocupados`, remove from `no_asignados`); when the pool is empty
only a warning is flashed and the state is unchanged. -/
def stepPulling (df : List WellRec) (geo : GeoFn) (s : EngState) (u : Pulling) :
    Option EngState :=
  match candsOf df geo (refWell s.1 u) s.2.2 with
  | none => none
  | some cands =>
    match List.insertionSort candLE cands with
    | [] => some s
    | best :: _ => some (updateAsig s.1 u.name best, best.1 :: s.2.1, s.2.2.erase best.1)

/-- `asignar_pozos` from app.py, one priority round: recompute the local
pool from the available wells minus the occupied set, then process the
units in their input order. -/
def asignar_pozos (df : List WellRec) (geo : GeoFn) (lista : List Pulling)
    (disp : List String) (a : AsigMap × List String) : Option (AsigMap × List String) :=
  (lista.foldlM (stepPulling df geo)
    (a.1, a.2, disp.filter (fun p => decide (p ∉ a.2)))).map (fun s => (s.1, s.2.1))

/-- The dict `{pulling: [] for pulling, _ in pulling_lista}`. -/
def initAsig (lista : List Pulling) : AsigMap :=
  lista.map (fun u => (u.name, []))

/-- The three rounds N+1, N+2, N+3. -/
def finalAsig (df : List WellRec) (geo : GeoFn) (lista : List Pulling)
    (disp : List String) : Option (AsigMap × List String) := do
  let s1 ← asignar_pozos df geo lista disp (initAsig lista, [])
  let s2 ← asignar_pozos df geo lista disp s1
  asignar_pozos df geo lista disp s2

/-- `get_neta` from app.py: `0` for the `"N/A"` sentinel and for a well
with no row, otherwise the well's net output (guarded lookup). -/
def get_neta (df : List WellRec) (p : String) : ℚ :=
  if p = "N/A" then 0
  else match findPozo df p with
    | some r => r.neta
    | none => 0

/-- One row of the priority matrix: the unit's current state and, per rank,
the tuple `(pozo, neta, coeficiente, distancia)`. -/
structure MatrixRow where
  pulling : String
  pozoActual : String
  netaActual : ℚ
  tiempoRestante : ℚ
  n1 : String × ℚ × ℚ × ℚ
  n2 : String × ℚ × ℚ × ℚ
  n3 : String × ℚ × ℚ × ℚ
deriving DecidableEq

/-- The padding sentinel appended while fewer than three wells are
assigned: `("N/A", 1, 1)`. -/
def naSentinel : Cand := ("N/A", 1, 1)

/-- The matrix row of one unit: unguarded `.iloc[0]` on the current well
(hence `Option`), the first three assignments padded with `naSentinel`;
every slot carries the coefficient and distance of its round (or padding)
tuple — the row appends `coef_n1`, not the locally recomputed
`coeficiente_n1`, which only the commented-out recommendation reads. -/
def buildRow (df : List WellRec) (u : Pulling) (hist : List Cand) : Option MatrixRow :=
  match findPozo df u.pozo with
  | none => none
  | some ra =>
    let sel : Cand × Cand × Cand :=
      match hist.take 3 with
      | [] => (naSentinel, naSentinel, naSentinel)
      | [a] => (a, naSentinel, naSentinel)
      | [a, b] => (a, b, naSentinel)
      | a :: b :: c :: _ => (a, b, c)
    some
      { pulling := u.name
        pozoActual := u.pozo
        netaActual := ra.neta
        tiempoRestante := u.tiempoRestante
        n1 := (sel.1.1, get_neta df sel.1.1, sel.1.2.1, sel.1.2.2)
        n2 := (sel.2.1.1, get_neta df sel.2.1.1, sel.2.1.2.1, sel.2.1.2.2)
        n3 := (sel.2.2.1, get_neta df sel.2.2.1, sel.2.2.2.1, sel.2.2.2.2) }

/-- The `assign` route's computational core: run the three rounds, then
build one matrix row per unit. -/
def assign (df : List WellRec) (geo : GeoFn) (lista : List Pulling)
    (disp : List String) : Option (List MatrixRow) := do
  let s ← finalAsig df geo lista disp
  lista.mapM (fun u => buildRow df u (lookupAsig s.1 u.name))

/-! ### Shared concrete instances used by witnesses and counterexamples. -/

/-- A trivial similarity function (the similarity is irrelevant to the
instance using it). -/
def simZero : String → String → ℚ := fun _ _ => 0

/-- A similarity function for the C4 witness: letters `AB` score `1/2`,
everything else `0`. -/
def simW : String → String → ℚ := fun _ b => if b = "AB" then 1/2 else 0

/-- A degenerate geodesic function: all distances zero. -/
def geoZero : GeoFn := fun _ _ => 0

/-- A computable binary maximum on `ℚ` (equal to `max`, but written with an
`if` so that concrete instances evaluate). -/
def qmax (a b : ℚ) : ℚ := if a ≤ b then b else a

/-- The claim's reading of a non-empty cell (only the empty string is
empty). -/
def nonEmptyCell : CellVal → Bool
  | CellVal.str s => !s.isEmpty
  | _ => true

/-- The claim's invariant "exactly one record per resolved well id". -/
def onePerWellId (l : List FinalRec) : Prop :=
  (l.map FinalRec.pozo).Nodup

/-- A surviving, fully valid worksheet row with the given well id and loss
volume. -/
def okRow (pz : String) (loss : ℚ) : SheetRow :=
  { obsColor := none, pozoColor := none
    activo := CellVal.str "Z1", pozo := CellVal.str pz
    x := CellVal.num 5, y := CellVal.num 6
    perdida := CellVal.num loss, plan := CellVal.num 1
    planHs := CellVal.num 2, equipo := CellVal.str "EQ"
    bateria := CellVal.str "BAT" }

/-- A row whose remarks cell is painted with the reserved red fill. -/
def redRow : SheetRow :=
  { okRow "RED" 9 with obsColor := some "FFFF0000" }

/-- A surviving row whose equipment cell is the empty string. -/
def emptyEquipRow : SheetRow :=
  { okRow "E1" 3 with equipo := CellVal.str "" }

/-- Two byte-identical data rows for the same well (the pipeline never
deduplicates well ids). -/
def rowsC5 : List SheetRow := [okRow "A" 1, okRow "A" 1]

/-- A one-entry coordinate registry for well `A`. -/
def coordsC5 : List CoordRow := [⟨"A", 1, 2⟩]

/-- Input rows for the preview claim: insertion order `L` then `H`, loss
volumes `1 < 2`. -/
def rowsC8 : List SheetRow := [okRow "L" 1, okRow "H" 2]

/-- Input rows containing a red-flagged row. -/
def rowsC6 : List SheetRow := [redRow, okRow "A" 1]

/-- A two-well dataset for the engine instances: the unit sits at `A`, only
`B` is available. -/
def dfE1 : List WellRec := [⟨"A", 3, 1, 0, 0⟩, ⟨"B", 2, 1, 1, 0⟩]

/-- One service unit anchored at well `A`. -/
def listaE1 : List Pulling := [⟨"Pulling 1", "A", 0⟩]

/-- The four-well dataset of the tie-break scenario: reference `R`, wells
`W1` (coefficient 9, distance 1), `W2` (coefficient 9, distance 1/4) and
`W3` (coefficient 5, distance 4). -/
def dfE2 : List WellRec :=
  [⟨"R", 1, 1, 0, 0⟩, ⟨"W1", 27/2, 1, 1, 0⟩, ⟨"W2", 81/8, 1, 1/2, 0⟩,
   ⟨"W3", 15, 1, 2, 0⟩]

/-- Two units, both anchored at the shared reference well `R`, `A`
processed before `B`. -/
def listaE2 : List Pulling := [⟨"A", "R", 0⟩, ⟨"B", "R", 0⟩]

/-- A geodesic model for `dfE2`: the squared difference of the latitudes
(the wells sit on a line). -/
def geoSq : GeoFn := fun a b => (a.1 - b.1) * (a.1 - b.1)

/-- All well ids claimed in the assignment dict, across units and rounds. -/
def allClaims (m : AsigMap) : List String :=
  (m.map (fun e => e.2.map (fun c => c.1))).flatten

/-- The well id has a row in the finalized dataset. -/
def presentIn (df : List WellRec) (p : String) : Prop :=
  ∃ r ∈ df, r.pozo = p

/-- The invariant of the engine state within a round: claims are
duplicate-free and occupied, the pool is duplicate-free and disjoint from
the occupied set, and the dict keys are distinct. -/
def engStateInv (st : EngState) : Prop :=
  (allClaims st.1).Nodup
  ∧ (∀ p ∈ allClaims st.1, p ∈ st.2.1)
  ∧ st.2.2.Nodup
  ∧ (∀ p ∈ st.2.2, p ∉ st.2.1)
  ∧ (st.1.map (fun e => e.1)).Nodup

/-- The invariant between rounds: claims are duplicate-free and occupied,
and the dict keys are distinct. -/
def engInv (a : AsigMap × List String) : Prop :=
  (allClaims a.1).Nodup
  ∧ (∀ p ∈ allClaims a.1, p ∈ a.2)
  ∧ (a.1.map (fun e => e.1)).Nodup

/-- The maximal letter-similarity over the digit-run candidates, as the
best-candidate loop computes it (starting the maximum at `0`). -/
def maxSimBest (sim : String → String → ℚ) (registry : List String) (p : String) : ℚ :=
  ((pozoCandidates registry p).map
    (fun c => sim (extract_letters p) (extract_letters c))).foldl qmax 0

/-! ### Helper lemmas. -/

/-- `qmax` is the lattice maximum. -/
theorem qmax_eq_max (a b : ℚ) : qmax a b = max a b := (max_def a b).symm

/-- Folding `qmax` is folding `max`. -/
theorem foldl_qmax_eq (l : List ℚ) (r0 : ℚ) : l.foldl qmax r0 = l.foldl max r0 := by
  induction l generalizing r0 with
  | nil => rfl
  | cons a t ih =>
    rw [List.foldl_cons, List.foldl_cons, qmax_eq_max]
    exact ih (max r0 a)

/-- The initial accumulator bounds a `foldl max`. -/
theorem foldl_max_init (l : List ℚ) (r0 : ℚ) : r0 ≤ l.foldl max r0 := by
  induction l generalizing r0 with
  | nil => exact le_refl r0
  | cons a t ih => exact le_trans (le_max_left r0 a) (ih (max r0 a))

/-- Every member bounds a `foldl max`. -/
theorem foldl_max_mem (l : List ℚ) (r0 a : ℚ) : a ∈ l → a ≤ l.foldl max r0 := by
  induction l generalizing r0 with
  | nil => intro ha; cases ha
  | cons b t ih =>
    intro ha
    rcases List.mem_cons.mp ha with h | h
    · subst h
      exact le_trans (le_max_right r0 a) (foldl_max_init t (max r0 a))
    · exact ih (max r0 b) h

/-- A `foldl max` is the initial accumulator or a member. -/
theorem foldl_max_cases (l : List ℚ) (r0 : ℚ) :
    l.foldl max r0 = r0 ∨ l.foldl max r0 ∈ l := by
  induction l generalizing r0 with
  | nil => exact Or.inl rfl
  | cons a t ih =>
    rcases ih (max r0 a) with h | h
    · rcases le_total r0 a with hle | hle
      · right
        rw [List.foldl_cons, h, max_eq_right hle]
        exact List.mem_cons_self a t
      · left
        rw [List.foldl_cons, h, max_eq_left hle]
    · exact Or.inr (List.mem_cons_of_mem a h)

/-- Invariant of the best-candidate fold of `custom_normalize_pozo`: the
running ratio is the running maximum, and the running candidate is either
still the initial one or a list member realising the running ratio. -/
theorem bestFold_spec (f : String → ℚ) (l : List String) (acc : Option String × ℚ) :
    (l.foldl (fun a c => if a.2 < f c then (some c, f c) else a) acc).2
        = (l.map f).foldl max acc.2
      ∧ ((l.foldl (fun a c => if a.2 < f c then (some c, f c) else a) acc) = acc
        ∨ ∃ c ∈ l, (l.foldl (fun a c => if a.2 < f c then (some c, f c) else a) acc)
            = (some c, f c)) := by
  induction l generalizing acc with
  | nil => exact ⟨rfl, Or.inl rfl⟩
  | cons b t ih =>
    have hstep : (if acc.2 < f b then (some b, f b) else acc).2 = max acc.2 (f b) := by
      by_cases h : acc.2 < f b
      · rw [if_pos h, max_eq_right (le_of_lt h)]
      · rw [if_neg h, max_eq_left (le_of_not_lt h)]
    constructor
    · rw [List.foldl_cons, List.map_cons, List.foldl_cons, ← hstep]
      exact (ih _).1
    · rw [List.foldl_cons]
      rcases (ih (if acc.2 < f b then (some b, f b) else acc)).2 with h | ⟨c, hc, hcq⟩
      · by_cases hb : acc.2 < f b
        · right
          refine ⟨b, List.mem_cons_self b t, ?_⟩
          rw [h, if_pos hb]
        · left
          rw [h, if_neg hb]
      · exact Or.inr ⟨c, List.mem_cons_of_mem b hc, hcq⟩

/-- Unfolding of the fuzzy reconciler on an empty candidate list. -/
theorem custom_normalize_pozo_nil (sim : String → String → ℚ) (registry : List String)
    (p : String) (htrim : strTrim p = p) (hcs : pozoCandidates registry p = []) :
    custom_normalize_pozo sim registry p = p := by
  simp only [custom_normalize_pozo, htrim, hcs]

/-- Unfolding of the fuzzy reconciler on a singleton candidate list. -/
theorem custom_normalize_pozo_single (sim : String → String → ℚ) (registry : List String)
    (p c : String) (htrim : strTrim p = p) (hcs : pozoCandidates registry p = [c]) :
    custom_normalize_pozo sim registry p = c := by
  simp only [custom_normalize_pozo, htrim, hcs]

/-- Unfolding of the fuzzy reconciler on two or more candidates. -/
theorem custom_normalize_pozo_many (sim : String → String → ℚ) (registry : List String)
    (p c1 c2 : String) (rest : List String) (htrim : strTrim p = p)
    (hcs : pozoCandidates registry p = c1 :: c2 :: rest) :
    custom_normalize_pozo sim registry p =
      (if (1 : ℚ)/2 ≤ (bestLetterMatch sim (extract_letters p) (c1 :: c2 :: rest)).2 then
        match (bestLetterMatch sim (extract_letters p) (c1 :: c2 :: rest)).1 with
        | some c => c
        | none => p
      else p) := by
  simp only [custom_normalize_pozo, htrim, hcs]

/-- C4: with no exact registry match, the reconciler filters registry
identifiers by identical digit run; zero candidates leave the identifier
unchanged, a single candidate is adopted, and among several candidates the
one realising the maximal letter-similarity is adopted exactly when that
maximum is at least `0.5`, the identifier staying unchanged otherwise. -/
theorem C4_fuzzy_identifier_resolution (sim : String → String → ℚ)
    (registry : List String) (p : String)
    (htrim : strTrim p = p) (hnoexact : exactMatch registry p = none) :
    (pozoCandidates registry p = [] → apply_normalization sim registry p = p)
    ∧ (∀ c, pozoCandidates registry p = [c] → apply_normalization sim registry p = c)
    ∧ (2 ≤ (pozoCandidates registry p).length →
        (∀ c ∈ pozoCandidates registry p,
          sim (extract_letters p) (extract_letters c) ≤ maxSimBest sim registry p)
        ∧ ((1 : ℚ)/2 ≤ maxSimBest sim registry p →
            ∃ c ∈ pozoCandidates registry p,
              apply_normalization sim registry p = c
              ∧ sim (extract_letters p) (extract_letters c) = maxSimBest sim registry p)
        ∧ (maxSimBest sim registry p < (1 : ℚ)/2 →
            apply_normalization sim registry p = p)) := by
  have happ : apply_normalization sim registry p = custom_normalize_pozo sim registry p := by
    unfold apply_normalization
    rw [hnoexact]
  refine ⟨?_, ?_, ?_⟩
  · intro hc
    rw [happ]
    exact custom_normalize_pozo_nil sim registry p htrim hc
  · intro c hc
    rw [happ]
    exact custom_normalize_pozo_single sim registry p c htrim hc
  · intro hlen
    rcases hcs : pozoCandidates registry p with _ | ⟨c1, _ | ⟨c2, rest⟩⟩
    · rw [hcs] at hlen
      exact absurd hlen (by norm_num)
    · rw [hcs] at hlen
      exact absurd hlen (by norm_num)
    have hmany := custom_normalize_pozo_many sim registry p c1 c2 rest htrim hcs
    have hspec := bestFold_spec (fun c => sim (extract_letters p) (extract_letters c))
      (c1 :: c2 :: rest) (none, 0)
    have hM : (bestLetterMatch sim (extract_letters p) (c1 :: c2 :: rest)).2
        = maxSimBest sim registry p := by
      unfold bestLetterMatch maxSimBest
      rw [hcs]
      exact hspec.1
    refine ⟨?_, ?_, ?_⟩
    · intro c hcmem
      have hmap : sim (extract_letters p) (extract_letters c)
          ∈ (c1 :: c2 :: rest).map (fun c => sim (extract_letters p) (extract_letters c)) :=
        List.mem_map_of_mem _ hcmem
      have hle := foldl_max_mem _ 0 _ hmap
      rw [← hspec.1] at hle
      rw [← hM]
      exact hle
    · intro hge
      rcases hspec.2 with hnone | ⟨c, hcmem, hcq⟩
      · exfalso
        have h0 : (bestLetterMatch sim (extract_letters p) (c1 :: c2 :: rest)).2 = 0 := by
          unfold bestLetterMatch
          rw [hnone]
        rw [hM] at h0
        rw [h0] at hge
        norm_num at hge
      · have hbest : bestLetterMatch sim (extract_letters p) (c1 :: c2 :: rest)
            = (some c, sim (extract_letters p) (extract_letters c)) := hcq
        have hfc : sim (extract_letters p) (extract_letters c)
            = maxSimBest sim registry p := by
          rw [← hM, hbest]
        refine ⟨c, hcmem, ?_, hfc⟩
        rw [happ, hmany, hbest]
        dsimp only
        rw [if_pos (hfc.symm ▸ hge)]
    · intro hlt
      rw [happ, hmany]
      rw [if_neg (by rw [hM]; exact not_le.mpr hlt)]

unseal Rat.mul Rat.inv Rat.add Rat.sub in
/-- C4 witness: registry `["AB 12", "XY 12", "ZZ 3"]`, record id `"AC12"`:
two candidates share the digit run `12`; with a similarity scoring `AB` at
`1/2` and everything else `0`, the maximum is `1/2 ≥ 0.5` and `"AB 12"` is
adopted. -/
theorem C4_witness :
    strTrim "AC12" = "AC12"
    ∧ exactMatch ["AB 12", "XY 12", "ZZ 3"] "AC12" = none
    ∧ 2 ≤ (pozoCandidates ["AB 12", "XY 12", "ZZ 3"] "AC12").length
    ∧ (1 : ℚ)/2 ≤ maxSimBest simW ["AB 12", "XY 12", "ZZ 3"] "AC12"
    ∧ ∃ c ∈ pozoCandidates ["AB 12", "XY 12", "ZZ 3"] "AC12",
        apply_normalization simW ["AB 12", "XY 12", "ZZ 3"] "AC12" = c
        ∧ simW (extract_letters "AC12") (extract_letters c)
            = maxSimBest simW ["AB 12", "XY 12", "ZZ 3"] "AC12" := by
  have htrim : strTrim "AC12" = "AC12" := by decide
  have hnoexact : exactMatch ["AB 12", "XY 12", "ZZ 3"] "AC12" = none := by decide
  have hlen : 2 ≤ (pozoCandidates ["AB 12", "XY 12", "ZZ 3"] "AC12").length := by decide
  have hge : (1 : ℚ)/2 ≤ maxSimBest simW ["AB 12", "XY 12", "ZZ 3"] "AC12" := by
    decide
  exact ⟨htrim, hnoexact, hlen, hge,
    (((C4_fuzzy_identifier_resolution simW ["AB 12", "XY 12", "ZZ 3"] "AC12"
      htrim hnoexact).2.2 hlen).2.1 hge)⟩

/-- C9: reconciliation is idempotent on canonical identifiers: when the
registry's normalized spellings are pairwise distinct and every identifier
of the record set is literally a registry spelling, the reconciliation map
leaves every identifier unchanged. -/
theorem C9_reconciliation_idempotent (sim : String → String → ℚ)
    (registry : List String) (ids : List String)
    (hinj : ∀ a ∈ registry, ∀ b ∈ registry, strUpper (strTrim a) = strUpper (strTrim b) → a = b)
    (hids : ∀ p ∈ ids, p ∈ registry) :
    ids.map (apply_normalization sim registry) = ids := by
  have hone : ∀ p ∈ ids, apply_normalization sim registry p = p := by
    intro p hp
    have hreg : p ∈ registry := hids p hp
    have hsome : (exactMatch registry p).isSome := by
      unfold exactMatch
      exact List.find?_isSome.mpr ⟨p, hreg, by simp⟩
    rcases Option.isSome_iff_exists.mp hsome with ⟨c, hc⟩
    have hpred : (strUpper (strTrim c) = strUpper (strTrim p)) := by
      have := List.find?_some hc
      exact of_decide_eq_true this
    have hcm : c ∈ registry := List.mem_of_find?_eq_some hc
    have hcp : c = p := hinj c hcm p hreg hpred
    unfold apply_normalization
    rw [hc, hcp]
  calc ids.map (apply_normalization sim registry) = ids.map id :=
        List.map_congr_left hone
    _ = ids := List.map_id ids

/-- C9 witness: a two-entry registry and a record set using both canonical
spellings verbatim; reconciliation changes nothing. -/
theorem C9_witness :
    (∀ a ∈ (["PB 7", "PC 8"] : List String), ∀ b ∈ (["PB 7", "PC 8"] : List String),
      strUpper (strTrim a) = strUpper (strTrim b) → a = b)
    ∧ (∀ p ∈ (["PC 8", "PB 7"] : List String), p ∈ (["PB 7", "PC 8"] : List String))
    ∧ (["PC 8", "PB 7"] : List String).map (apply_normalization simZero ["PB 7", "PC 8"])
        = ["PC 8", "PB 7"] := by
  refine ⟨by decide, by decide, ?_⟩
  exact C9_reconciliation_idempotent simZero ["PB 7", "PC 8"] ["PC 8", "PB 7"]
    (by decide) (by decide)

/-! ### Pipeline stage-membership lemmas. -/

/-- Every record of the sorted stage is the coerced image of a surviving
input row. -/
theorem mem_stage_sorted (hO hE hP : Bool) (rows : List SheetRow) (rec : Rec)
    (h : rec ∈ stage_sorted hO hE hP rows) :
    ∃ r ∈ survivingRows hO hE rows, rec = coerceLoss (toRec hP r) := by
  simp only [stage_sorted] at h
  have hperm := List.perm_insertionSort lossGE ((stage_ingest hO hE hP rows).map coerceLoss)
  have hmem : rec ∈ (stage_ingest hO hE hP rows).map coerceLoss := hperm.mem_iff.mp h
  rcases List.mem_map.mp hmem with ⟨a, ha, rfl⟩
  simp only [stage_ingest] at ha
  rcases List.mem_map.mp ha with ⟨r, hr, rfl⟩
  exact ⟨r, hr, rfl⟩

/-- Decomposition of membership in the filtered stage. -/
theorem mem_stage_filtered (hO hE hP : Bool) (rows : List SheetRow) (rec : Rec)
    (h : rec ∈ stage_filtered hO hE hP rows) :
    rec ∈ stage_sorted hO hE hP rows ∧ eqOne rec.plan = true
      ∧ criticalOk rec = true ∧ no_contiene rec.equipo = true := by
  simp only [stage_filtered, List.mem_filter] at h
  exact ⟨h.1.1.1, h.1.1.2, h.1.2, h.2⟩

/-- Every record of the reconciled stage is the reconciled image of a
filtered record. -/
theorem mem_stage_reconciled (sim : String → String → ℚ) (hO hE hP : Bool)
    (rows : List SheetRow) (coords : List CoordRow) (rec : Rec)
    (h : rec ∈ stage_reconciled sim hO hE hP rows coords) :
    ∃ q ∈ stage_filtered hO hE hP rows,
      rec = reconcileRec sim (coords.map CoordRow.pozo) q := by
  simp only [stage_reconciled] at h
  rcases List.mem_map.mp h with ⟨q, hq, rfl⟩
  exact ⟨q, hq, rfl⟩

/-- The left component of a merged pair is one of the merged records. -/
theorem mem_mergeGeo (l : List Rec) (coords : List CoordRow) (x : Rec × Option (ℚ × ℚ))
    (h : x ∈ mergeGeo l coords) : x.1 ∈ l := by
  simp only [mergeGeo] at h
  rcases List.mem_flatMap.mp h with ⟨r, hr, hx⟩
  rcases hcf : coords.filter (fun c => decide (r.pozo = CellVal.str c.pozo)) with _ | ⟨c, cs⟩
  · rw [hcf] at hx
    rcases List.mem_singleton.mp hx with rfl
    exact hr
  · rw [hcf] at hx
    rcases List.mem_map.mp hx with ⟨c0, _, rfl⟩
    exact hr

/-- `uniqueFirst` members come from the underlying list. -/
theorem mem_of_uniqueFirstAux {α} [DecidableEq α] (l : List α) :
    ∀ (seen : List α) (a : α), a ∈ uniqueFirstAux seen l → a ∈ l := by
  induction l with
  | nil =>
    intro seen a h
    cases h
  | cons b t ih =>
    intro seen a h
    unfold uniqueFirstAux at h
    by_cases hb : b ∈ seen
    · rw [if_pos hb] at h
      exact List.mem_cons_of_mem b (ih seen a h)
    · rw [if_neg hb] at h
      rcases List.mem_cons.mp h with rfl | h2
      · exact List.mem_cons_self a t
      · exact List.mem_cons_of_mem b (ih (b :: seen) a h2)

/-- List members not yet seen are kept by `uniqueFirst`. -/
theorem mem_uniqueFirstAux_of_mem {α} [DecidableEq α] (l : List α) :
    ∀ (seen : List α) (a : α), a ∈ l → a ∉ seen → a ∈ uniqueFirstAux seen l := by
  induction l with
  | nil =>
    intro seen a h
    cases h
  | cons b t ih =>
    intro seen a h hns
    unfold uniqueFirstAux
    by_cases hb : b ∈ seen
    · rw [if_pos hb]
      rcases List.mem_cons.mp h with rfl | h2
      · exact absurd hb hns
      · exact ih seen a h2 hns
    · rw [if_neg hb]
      rcases List.mem_cons.mp h with rfl | h2
      · exact List.mem_cons_self a _
      · by_cases hab : a = b
        · subst hab
          exact List.mem_cons_self a _
        · refine List.mem_cons_of_mem b (ih (b :: seen) a h2 ?_)
          intro hmem
          rcases List.mem_cons.mp hmem with h3 | h3
          · exact hab h3
          · exact hns h3

/-- Every finalized record arises from a merged pair that carries
coordinates; the pair's record is a reconciled record. -/
theorem mem_stage_final (sim : String → String → ℚ) (hO hE hP : Bool) (date : String)
    (rows : List SheetRow) (coords : List CoordRow) (f : FinalRec)
    (h : f ∈ stage_final sim hO hE hP date rows coords) :
    ∃ x ∈ mergeGeo (stage_reconciled sim hO hE hP rows coords) coords,
      ∃ la lo, x.2 = some (la, lo) ∧ f = mkFinal date x.1 la lo := by
  simp only [stage_final] at h
  rcases List.mem_filterMap.mp h with ⟨x, hx, hfx⟩
  have hxm : x ∈ mergeGeo (stage_reconciled sim hO hE hP rows coords) coords := by
    rcases hsplit : (stage_missing sim hO hE hP rows coords).isEmpty with _ | _
    · rw [hsplit] at hx
      simp only [Bool.false_eq_true, if_false] at hx
      exact List.mem_of_mem_filter hx
    · rw [hsplit] at hx
      simp only [if_true] at hx
      exact hx
  rcases hx2 : x.2 with _ | ⟨la, lo⟩
  · rw [hx2] at hfx
    cases hfx
  · rw [hx2] at hfx
    rcases Option.some.inj hfx with rfl
    exact ⟨x, hxm, la, lo, hx2, rfl⟩

/-! ### C7: the critical-field filter. -/

/-- C7 (amended): every record surviving the filter pipeline has every
critical field non-null and not numerically zero.  (The claim's additional
"non-empty" requirement does not hold: an empty-string cell passes both
`notnull` and `!= 0`; see the counterexample.) -/
theorem C7_critical_fields_amended (hO hE hP : Bool) (rows : List SheetRow) (rec : Rec)
    (h : rec ∈ stage_filtered hO hE hP rows) :
    ∀ v ∈ [rec.activo, rec.pozo, rec.x, rec.y, rec.perdida, rec.plan,
      rec.planHs, rec.equipo], notNull v = true ∧ neZero v = true := by
  have hcrit := (mem_stage_filtered hO hE hP rows rec h).2.2.1
  simp only [criticalOk, Bool.and_eq_true] at hcrit
  obtain ⟨⟨⟨⟨⟨⟨⟨h1, h2⟩, h3⟩, h4⟩, h5⟩, h6⟩, h7⟩, h8⟩ := hcrit
  intro v hv
  simp only [List.mem_cons, List.not_mem_nil, or_false] at hv
  rcases hv with rfl | rfl | rfl | rfl | rfl | rfl | rfl | rfl
  · exact h1
  · exact h2
  · exact h3
  · exact h4
  · exact h5
  · exact h6
  · exact h7
  · exact h8

/-- C7 counterexample: a surviving record whose equipment field is the
empty string — refuting the claim's "non-empty" requirement on critical
fields of retained records. -/
theorem C7_counterexample :
    ¬ (∀ rec ∈ stage_filtered true true true [emptyEquipRow],
        nonEmptyCell rec.equipo = true) := by
  decide

/-- C7 witness: the same record, with every critical field non-null and
non-zero as the amended claim states. -/
theorem C7_witness :
    coerceLoss (toRec true emptyEquipRow) ∈ stage_filtered true true true [emptyEquipRow]
    ∧ ∀ v ∈ [(coerceLoss (toRec true emptyEquipRow)).activo,
        (coerceLoss (toRec true emptyEquipRow)).pozo,
        (coerceLoss (toRec true emptyEquipRow)).x,
        (coerceLoss (toRec true emptyEquipRow)).y,
        (coerceLoss (toRec true emptyEquipRow)).perdida,
        (coerceLoss (toRec true emptyEquipRow)).plan,
        (coerceLoss (toRec true emptyEquipRow)).planHs,
        (coerceLoss (toRec true emptyEquipRow)).equipo],
        notNull v = true ∧ neZero v = true :=
  ⟨by decide,
   C7_critical_fields_amended true true true [emptyEquipRow]
     (coerceLoss (toRec true emptyEquipRow)) (by decide)⟩

/-! ### C8: the preview. -/

/-- C8 counterexample: with two surviving rows inserted as `L` (loss 1)
then `H` (loss 2), the preview lists `H` first — it is the top-20 of the
loss-sorted records, not the first rows in raw insertion order. -/
theorem C8_counterexample :
    stage_preview true true true rowsC8
        = [coerceLoss (toRec true (okRow "H" 2)), coerceLoss (toRec true (okRow "L" 1))]
    ∧ stage_preview true true true rowsC8
        ≠ ((stage_ingest true true true rowsC8).map coerceLoss).take 20 := by
  exact ⟨by decide, by decide⟩

/-- C8 (amended): the (single) preview is the first 20 records after the
loss coercion and the descending sort on loss — it is produced after the
rename/coerce/sort of stage 2, before the plan/critical/equipment filters
and all later stages, and each preview record is the coerced image of a
surviving input row. -/
theorem C8_preview_amended (hO hE hP : Bool) (rows : List SheetRow) :
    stage_preview hO hE hP rows = (stage_sorted hO hE hP rows).take 20
    ∧ List.Sorted lossGE (stage_preview hO hE hP rows)
    ∧ ∀ rec ∈ stage_preview hO hE hP rows,
        ∃ r ∈ survivingRows hO hE rows, rec = coerceLoss (toRec hP r) := by
  refine ⟨rfl, ?_, ?_⟩
  · have hs : List.Sorted lossGE (stage_sorted hO hE hP rows) :=
      List.sorted_insertionSort lossGE _
    exact List.Pairwise.sublist (List.take_sublist 20 _) hs
  · intro rec hrec
    exact mem_stage_sorted hO hE hP rows rec (List.mem_of_mem_take hrec)

/-! ### C5: the finalized record set. -/

/-- C5 counterexample: two byte-identical surviving input rows for well
`A` yield two finalized records with the same well id — the pipeline never
deduplicates, so "exactly one record per resolved well id" fails. -/
theorem C5_counterexample :
    ((stage_final simZero true true true "2026-10-12" rowsC5 coordsC5).map FinalRec.pozo)
        = [CellVal.str "A", CellVal.str "A"]
    ∧ ¬ onePerWellId (stage_final simZero true true true "2026-10-12" rowsC5 coordsC5) := by
  refine ⟨by decide, ?_⟩
  unfold onePerWellId
  decide

/-- C5 (amended): every merged record lacking coordinates is reported in
the missing-well diagnostic, and every finalized record carries the
coordinates of its merged pair — but several records may share one
resolved well id, since the pipeline never deduplicates. -/
theorem C5_geo_amended (sim : String → String → ℚ) (hO hE hP : Bool) (date : String)
    (rows : List SheetRow) (coords : List CoordRow) :
    (∀ x ∈ mergeGeo (stage_reconciled sim hO hE hP rows coords) coords,
        x.2 = none → x.1.pozo ∈ stage_missing sim hO hE hP rows coords)
    ∧ (∀ f ∈ stage_final sim hO hE hP date rows coords,
        ∃ x ∈ mergeGeo (stage_reconciled sim hO hE hP rows coords) coords,
          ∃ la lo, x.2 = some (la, lo) ∧ f = mkFinal date x.1 la lo) := by
  constructor
  · intro x hx hnone
    simp only [stage_missing]
    refine mem_uniqueFirstAux_of_mem _ [] _ ?_ (by simp)
    refine List.mem_map.mpr ⟨x, ?_, rfl⟩
    refine List.mem_filter.mpr ⟨hx, ?_⟩
    rw [hnone]
    rfl
  · intro f hf
    exact mem_stage_final sim hO hE hP date rows coords f hf

/-- C5 witness: a record whose well has no registry entry is reported in
the missing-well diagnostic. -/
theorem C5_witness :
    (reconcileRec simZero [] (coerceLoss (toRec true (okRow "M" 1)))).pozo
      ∈ stage_missing simZero true true true [okRow "M" 1] [] :=
  (C5_geo_amended simZero true true true "2026-10-12" [okRow "M" 1] []).1
    (reconcileRec simZero [] (coerceLoss (toRec true (okRow "M" 1))), none)
    (by decide) rfl

/-- C8 witness: the head of the concrete preview originates from a
surviving input row. -/
theorem C8_witness :
    ∃ r ∈ survivingRows true true rowsC8,
      coerceLoss (toRec true (okRow "H" 2)) = coerceLoss (toRec true r) :=
  (C8_preview_amended true true true rowsC8).2.2
    (coerceLoss (toRec true (okRow "H" 2))) (by decide)

/-! ### C6: red-flagged rows. -/

/-- C6: a row whose remarks cell carries the reserved red color is dropped
by the ingestion loop, and every record of every later stage — preview,
filtered set, reconciled set, finalized set, highlighted-well list —
originates from a surviving (non-discarded) input row. -/
theorem C6_red_row_never_appears (sim : String → String → ℚ) (hE hP : Bool)
    (date : String) (rows : List SheetRow) (coords : List CoordRow) (r : SheetRow)
    (_hr : r ∈ rows) (hred : isRedObs r = true) :
    r ∉ survivingRows true hE rows
    ∧ (∀ rec ∈ stage_preview true hE hP rows,
        ∃ q ∈ survivingRows true hE rows, rec = coerceLoss (toRec hP q))
    ∧ (∀ rec ∈ stage_filtered true hE hP rows,
        ∃ q ∈ survivingRows true hE rows, rec = coerceLoss (toRec hP q))
    ∧ (∀ rec ∈ stage_reconciled sim true hE hP rows coords,
        ∃ q ∈ survivingRows true hE rows,
          rec = reconcileRec sim (coords.map CoordRow.pozo) (coerceLoss (toRec hP q)))
    ∧ (∀ f ∈ stage_final sim true hE hP date rows coords,
        ∃ q ∈ survivingRows true hE rows, ∃ la lo,
          f = mkFinal date
            (reconcileRec sim (coords.map CoordRow.pozo) (coerceLoss (toRec hP q))) la lo)
    ∧ (∀ pz ∈ stage_celestes sim true hE hP rows coords,
        ∃ q ∈ survivingRows true hE rows,
          pz = (reconcileRec sim (coords.map CoordRow.pozo)
            (coerceLoss (toRec hP q))).pozo) := by
  refine ⟨?_, ?_, ?_, ?_, ?_, ?_⟩
  · intro hmem
    have hkeep := (List.mem_filter.mp hmem).2
    simp [discardRow, hred] at hkeep
  · intro rec hrec
    exact mem_stage_sorted true hE hP rows rec (List.mem_of_mem_take hrec)
  · intro rec hrec
    exact mem_stage_sorted true hE hP rows rec (mem_stage_filtered true hE hP rows rec hrec).1
  · intro rec hrec
    rcases mem_stage_reconciled sim true hE hP rows coords rec hrec with ⟨q, hq, rfl⟩
    rcases mem_stage_sorted true hE hP rows q (mem_stage_filtered true hE hP rows q hq).1
      with ⟨q0, hq0, rfl⟩
    exact ⟨q0, hq0, rfl⟩
  · intro f hf
    rcases mem_stage_final sim true hE hP date rows coords f hf
      with ⟨x, hx, la, lo, hx2, rfl⟩
    have hx1 := mem_mergeGeo _ coords x hx
    rcases mem_stage_reconciled sim true hE hP rows coords x.1 hx1 with ⟨q, hq, hxq⟩
    rcases mem_stage_sorted true hE hP rows q (mem_stage_filtered true hE hP rows q hq).1
      with ⟨q0, hq0, rfl⟩
    exact ⟨q0, hq0, la, lo, by rw [hxq]⟩
  · intro pz hpz
    simp only [stage_celestes] at hpz
    have hpz2 := mem_of_uniqueFirstAux _ [] _ hpz
    rcases List.mem_map.mp hpz2 with ⟨rec, hrec, rfl⟩
    have hrec2 := List.mem_filter.mp hrec
    rcases mem_stage_reconciled sim true hE hP rows coords rec hrec2.1 with ⟨q, hq, rfl⟩
    rcases mem_stage_sorted true hE hP rows q (mem_stage_filtered true hE hP rows q hq).1
      with ⟨q0, hq0, rfl⟩
    exact ⟨q0, hq0, rfl⟩

/-- C6 witness: a concrete red-flagged row among two input rows is
excluded from the surviving set. -/
theorem C6_witness :
    redRow ∈ rowsC6 ∧ isRedObs redRow = true
    ∧ redRow ∉ survivingRows true true rowsC6 :=
  ⟨by decide, by decide,
   (C6_red_row_never_appears simZero true true "2026-10-12" rowsC6 [] redRow
     (by decide) (by decide)).1⟩

/-! ### Engine helper lemmas: `Option`-monadic folds and maps. -/

/-- Pointwise content of a successful `mapM` over `Option`. -/
theorem mapM_opt_get {α β : Type} (f : α → Option β) (l : List α) :
    ∀ (res : List β), l.mapM f = some res →
      ∀ i (hi : i < l.length), res.get? i = f (l.get ⟨i, hi⟩) := by
  induction l with
  | nil =>
    intro res h i hi
    exact absurd hi (by simp)
  | cons a t ih =>
    intro res h i hi
    rw [List.mapM_cons] at h
    rcases hfa : f a with _ | b <;> rw [hfa] at h
    · cases h
    · rcases hml : t.mapM f with _ | bs <;> rw [hml] at h
      · cases h
      · simp only [Option.pure_def, Option.bind_eq_bind, Option.some_bind,
          Option.some.injEq] at h
        subst h
        cases i with
        | zero => simp [hfa]
        | succ n =>
          have hn : n < t.length := by simpa using hi
          simpa using ih bs hml n hn

/-- A successful `mapM` over `Option` has every component defined. -/
theorem mapM_opt_forall {α β : Type} (f : α → Option β) (l : List α) :
    ∀ (res : List β), l.mapM f = some res → ∀ a ∈ l, (f a).isSome := by
  induction l with
  | nil =>
    intro res _ a ha
    cases ha
  | cons a t ih =>
    intro res h b hb
    rw [List.mapM_cons] at h
    rcases hfa : f a with _ | c <;> rw [hfa] at h
    · cases h
    · rcases hml : t.mapM f with _ | bs <;> rw [hml] at h
      · cases h
      · rcases List.mem_cons.mp hb with rfl | hbt
        · rw [hfa]
          rfl
        · exact ih bs hml b hbt

/-- `mapM` over `Option` succeeds when every component is defined. -/
theorem mapM_opt_isSome {α β : Type} (f : α → Option β) (l : List α)
    (h : ∀ a ∈ l, (f a).isSome) : (l.mapM f).isSome := by
  induction l with
  | nil => rfl
  | cons a t ih =>
    rw [List.mapM_cons]
    rcases hfa : f a with _ | b
    · exact absurd (hfa ▸ h a (List.mem_cons_self a t)) (by simp)
    · rcases hml : t.mapM f with _ | bs
      · exact absurd (hml ▸ ih (fun x hx => h x (List.mem_cons_of_mem a hx))) (by simp)
      · simp

/-- A successful `mapM` over `Option` preserves length. -/
theorem mapM_opt_length {α β : Type} (f : α → Option β) (l : List α) :
    ∀ (res : List β), l.mapM f = some res → res.length = l.length := by
  induction l with
  | nil =>
    intro res h
    rw [List.mapM_nil] at h
    cases h
    rfl
  | cons a t ih =>
    intro res h
    rw [List.mapM_cons] at h
    rcases hfa : f a with _ | b <;> rw [hfa] at h
    · cases h
    · rcases hml : t.mapM f with _ | bs <;> rw [hml] at h
      · cases h
      · simp only [Option.pure_def, Option.bind_eq_bind, Option.some_bind,
          Option.some.injEq] at h
        subst h
        simp [ih bs hml]

/-- A successful `foldlM` over `Option` on a cons splits into a first step
and a remaining fold. -/
theorem foldlM_opt_first {σ α : Type} (f : σ → α → Option σ) (a : α) (l : List α)
    (x y : σ) (h : (a :: l).foldlM f x = some y) :
    ∃ x', f x a = some x' ∧ l.foldlM f x' = some y := by
  rw [List.foldlM_cons] at h
  rcases hfa : f x a with _ | x' <;> rw [hfa] at h
  · cases h
  · simp only [Option.bind_eq_bind, Option.some_bind] at h
    exact ⟨x', rfl, h⟩

/-- An invariant preserved by each step is preserved by a successful
`foldlM` over `Option`. -/
theorem foldlM_opt_inv {σ α : Type} (f : σ → α → Option σ) (P : σ → Prop) :
    ∀ (l : List α), (∀ a ∈ l, ∀ x y, P x → f x a = some y → P y) →
      ∀ x y, P x → l.foldlM f x = some y → P y := by
  intro l
  induction l with
  | nil =>
    intro _ x y hx h
    rw [List.foldlM_nil] at h
    cases h
    exact hx
  | cons a t ih =>
    intro hstep x y hx h
    rcases foldlM_opt_first f a t x y h with ⟨x', hfa, hrest⟩
    exact ih (fun b hb => hstep b (List.mem_cons_of_mem a hb)) x' y
      (hstep a (List.mem_cons_self a t) x x' hx hfa) hrest

/-- A `foldlM` over `Option` succeeds when each step succeeds and
preserves an invariant. -/
theorem foldlM_opt_total {σ α : Type} (f : σ → α → Option σ) (P : σ → Prop) :
    ∀ (l : List α), (∀ a ∈ l, ∀ x, P x → ∃ y, f x a = some y ∧ P y) →
      ∀ x, P x → ∃ y, l.foldlM f x = some y ∧ P y := by
  intro l
  induction l with
  | nil =>
    intro _ x hx
    exact ⟨x, rfl, hx⟩
  | cons a t ih =>
    intro hstep x hx
    rcases hstep a (List.mem_cons_self a t) x hx with ⟨x', hfa, hx'⟩
    rcases ih (fun b hb => hstep b (List.mem_cons_of_mem a hb)) x' hx' with ⟨y, hy, hPy⟩
    refine ⟨y, ?_, hPy⟩
    rw [List.foldlM_cons, hfa]
    simpa using hy

/-- The candidate list of a unit projects back onto the pool. -/
theorem candsOf_map_fst (df : List WellRec) (geo : GeoFn) (ref : String) :
    ∀ (pool : List String) (cands : List Cand),
      candsOf df geo ref pool = some cands → cands.map (fun c => c.1) = pool := by
  intro pool
  induction pool with
  | nil =>
    intro cands h
    rw [candsOf, List.mapM_nil] at h
    cases h
    rfl
  | cons p t ih =>
    intro cands h
    rw [candsOf, List.mapM_cons] at h
    rcases hcp : calcular_coeficiente df geo ref p with _ | cd <;>
      rw [hcp] at h
    · cases h
    · simp only [Option.map_some'] at h
      rcases hml : t.mapM (fun p =>
          (calcular_coeficiente df geo ref p).map (fun cd => (p, cd.1, cd.2))) with _ | bs <;>
        rw [hml] at h
      · cases h
      · simp only [Option.pure_def, Option.bind_eq_bind, Option.some_bind,
          Option.some.injEq] at h
        subst h
        have := ih bs hml
        simp only [List.map_cons, this]

/-- `candLE` is reflexive. -/
theorem candLE_refl (c : Cand) : candLE c c :=
  Or.inr ⟨rfl, le_refl _⟩

/-- The head of the sorted candidate list is a member and ranks first. -/
theorem insertionSort_head_min (l : List Cand) (best : Cand) (rest : List Cand)
    (h : List.insertionSort candLE l = best :: rest) :
    best ∈ l ∧ ∀ c ∈ l, candLE best c := by
  have hperm := List.perm_insertionSort candLE l
  have hsorted := List.sorted_insertionSort candLE l
  rw [h] at hperm hsorted
  constructor
  · exact hperm.subset (List.mem_cons_self best rest)
  · intro c hc
    have hc2 : c ∈ best :: rest := hperm.mem_iff.mpr hc
    rcases List.mem_cons.mp hc2 with rfl | hcr
    · exact candLE_refl c
    · exact List.rel_of_sorted_cons hsorted c hcr

/-- Updating a dict entry keeps the key list. -/
theorem updateAsig_names (m : AsigMap) (n : String) (best : Cand) :
    (updateAsig m n best).map (fun e => e.1) = m.map (fun e => e.1) := by
  unfold updateAsig
  rw [List.map_map]
  apply List.map_congr_left
  intro e _
  by_cases h : e.1 = n <;> simp [h]

/-- Unfolding of the dict read on a cons. -/
theorem lookupAsig_cons (e : String × List Cand) (t : AsigMap) (n : String) :
    lookupAsig (e :: t) n = if e.1 = n then e.2 else lookupAsig t n := by
  unfold lookupAsig
  by_cases h : e.1 = n
  · rw [List.find?_cons_of_pos _ (by simp [h]), if_pos h]
  · rw [List.find?_cons_of_neg _ (by simp [h]), if_neg h]

/-- Unfolding of the dict write on a cons. -/
theorem updateAsig_cons (e : String × List Cand) (t : AsigMap) (n : String) (best : Cand) :
    updateAsig (e :: t) n best
      = (if e.1 = n then (e.1, e.2 ++ [best]) else e) :: updateAsig t n best := rfl

/-- Reading the updated key returns the old history with the new
assignment appended (first matching entry semantics). -/
theorem lookupAsig_update_self (n : String) (best : Cand) :
    ∀ (m : AsigMap), n ∈ m.map (fun e => e.1) →
      lookupAsig (updateAsig m n best) n = lookupAsig m n ++ [best] := by
  intro m
  induction m with
  | nil =>
    intro hmem
    cases hmem
  | cons e t ih =>
    intro hmem
    rw [updateAsig_cons]
    by_cases h : e.1 = n
    · rw [if_pos h, lookupAsig_cons, lookupAsig_cons, if_pos h]
      rw [if_pos h]
    · have hmem2 : n ∈ t.map (fun e => e.1) := by
        rcases List.mem_cons.mp hmem with h1 | h1
        · exact absurd h1.symm h
        · exact h1
      rw [if_neg h, lookupAsig_cons, lookupAsig_cons, if_neg h, if_neg h]
      exact ih hmem2

/-- Reading any other key is unchanged by the update. -/
theorem lookupAsig_update_other (n n' : String) (best : Cand) (hne : n' ≠ n) :
    ∀ (m : AsigMap), lookupAsig (updateAsig m n best) n' = lookupAsig m n' := by
  intro m
  induction m with
  | nil => rfl
  | cons e t ih =>
    rw [updateAsig_cons]
    by_cases h : e.1 = n
    · have hne2 : ¬ (e.1 = n') := by
        rw [h]
        exact fun hc => hne hc.symm
      rw [if_pos h, lookupAsig_cons, lookupAsig_cons, if_neg hne2]
      rw [if_neg hne2]
      exact ih
    · rw [if_neg h, lookupAsig_cons, lookupAsig_cons]
      by_cases h2 : e.1 = n'
      · rw [if_pos h2, if_pos h2]
      · rw [if_neg h2, if_neg h2]
        exact ih

/-! ### C2: greedy in-order selection. -/

/-- C2: within a round, units are processed in input order (the state a
unit sees is the fold of the earlier units' steps); the unit claims the
candidate ranking first under coefficient-descending /
distance-ascending order, appends it to its own history only, removes the
claimed well from the round pool (so later units can never claim it), and
adds it to the occupied set. -/
theorem C2_greedy_order (df : List WellRec) (geo : GeoFn) (lista : List Pulling)
    (disp : List String) (a0 : AsigMap × List String) (i : Nat) (hi : i < lista.length)
    (s s' : EngState)
    (_hreach : (lista.take i).foldlM (stepPulling df geo)
      (a0.1, a0.2, disp.filter (fun p => decide (p ∉ a0.2))) = some s)
    (hstep : stepPulling df geo s (lista.get ⟨i, hi⟩) = some s')
    (hpool : s.2.2 ≠ [])
    (hname : (lista.get ⟨i, hi⟩).name ∈ s.1.map (fun e => e.1)) :
    ∃ cands best,
      candsOf df geo (refWell s.1 (lista.get ⟨i, hi⟩)) s.2.2 = some cands
      ∧ best ∈ cands ∧ best.1 ∈ s.2.2
      ∧ (∀ c ∈ cands, candLE best c)
      ∧ lookupAsig s'.1 (lista.get ⟨i, hi⟩).name
          = lookupAsig s.1 (lista.get ⟨i, hi⟩).name ++ [best]
      ∧ (∀ n', n' ≠ (lista.get ⟨i, hi⟩).name → lookupAsig s'.1 n' = lookupAsig s.1 n')
      ∧ s'.2.2 = s.2.2.erase best.1
      ∧ s'.2.1 = best.1 :: s.2.1 := by
  unfold stepPulling at hstep
  rcases hco : candsOf df geo (refWell s.1 (lista.get ⟨i, hi⟩)) s.2.2 with _ | cands <;>
    rw [hco] at hstep <;> dsimp only at hstep
  · cases hstep
  · rcases hsort : List.insertionSort candLE cands with _ | ⟨best, rest⟩ <;>
      rw [hsort] at hstep <;> dsimp only at hstep
    · exfalso
      have hperm := List.perm_insertionSort candLE cands
      rw [hsort] at hperm
      have hnil : cands = [] := hperm.symm.eq_nil
      have hfst := candsOf_map_fst df geo _ _ _ hco
      rw [hnil] at hfst
      exact hpool hfst.symm
    · cases hstep
      have hmin := insertionSort_head_min cands best rest hsort
      have hfst := candsOf_map_fst df geo _ _ _ hco
      refine ⟨cands, best, rfl, hmin.1, ?_, hmin.2, ?_, ?_, rfl, rfl⟩
      · rw [← hfst]
        exact List.mem_map_of_mem _ hmin.1
      · exact lookupAsig_update_self _ best s.1 hname
      · intro n' hn'
        exact lookupAsig_update_other _ n' best hn' s.1

unseal Rat.mul Rat.inv Rat.add Rat.sub in
/-- C2 witness: the tie-break scenario of the claim.  Unit `A` (processed
first) claims `W2` (coefficient 9, the closer of the two coefficient-9
wells); the state `B` then sees has `W2` erased from the pool, and `B`
claims `W1`. -/
theorem C2_witness :
    (∃ cands best,
      candsOf dfE2 geoSq (refWell (initAsig listaE2) ⟨"A", "R", 0⟩) ["W1", "W2", "W3"]
        = some cands
      ∧ best ∈ cands ∧ best.1 ∈ ["W1", "W2", "W3"]
      ∧ (∀ c ∈ cands, candLE best c)
      ∧ lookupAsig [("A", [("W2", 9, 1/4)]), ("B", [])] "A"
          = lookupAsig (initAsig listaE2) "A" ++ [best]
      ∧ (∀ n', n' ≠ "A" →
          lookupAsig [("A", [("W2", 9, 1/4)]), ("B", [])] n'
            = lookupAsig (initAsig listaE2) n')
      ∧ ["W1", "W3"] = ["W1", "W2", "W3"].erase best.1
      ∧ ["W2"] = best.1 :: ([] : List String))
    ∧ (∃ cands best,
      candsOf dfE2 geoSq (refWell [("A", [("W2", 9, 1/4)]), ("B", [])] ⟨"B", "R", 0⟩)
          ["W1", "W3"] = some cands
      ∧ best ∈ cands ∧ best.1 ∈ ["W1", "W3"]
      ∧ (∀ c ∈ cands, candLE best c)
      ∧ lookupAsig [("A", [("W2", 9, 1/4)]), ("B", [("W1", 9, 1)])] "B"
          = lookupAsig [("A", [("W2", 9, 1/4)]), ("B", [])] "B" ++ [best]
      ∧ (∀ n', n' ≠ "B" →
          lookupAsig [("A", [("W2", 9, 1/4)]), ("B", [("W1", 9, 1)])] n'
            = lookupAsig [("A", [("W2", 9, 1/4)]), ("B", [])] n')
      ∧ ["W3"] = ["W1", "W3"].erase best.1
      ∧ ["W1", "W2"] = best.1 :: ["W2"]) := by
  constructor
  · exact C2_greedy_order dfE2 geoSq listaE2 ["W1", "W2", "W3"] (initAsig listaE2, [])
      0 (by decide)
      (initAsig listaE2, [], ["W1", "W2", "W3"])
      ([("A", [("W2", 9, 1/4)]), ("B", [])], ["W2"], ["W1", "W3"])
      rfl rfl (by decide) (by decide)
  · exact C2_greedy_order dfE2 geoSq listaE2 ["W1", "W2", "W3"] (initAsig listaE2, [])
      1 (by decide)
      ([("A", [("W2", 9, 1/4)]), ("B", [])], ["W2"], ["W1", "W3"])
      ([("A", [("W2", 9, 1/4)]), ("B", [("W1", 9, 1)])], ["W1", "W2"], ["W3"])
      rfl rfl (by decide) (by decide)

/-! ### C1: the padding sentinel of the priority matrix. -/

/-- `get_neta` of the sentinel id is zero. -/
theorem get_neta_na (df : List WellRec) : get_neta df "N/A" = 0 := by
  simp [get_neta]

/-- What each matrix-row slot holds, by the length of the unit's
assignment history: every padded slot carries the `"N/A"` sentinel with
net output 0, coefficient 1 and distance 1 (from the `("N/A", 1, 1)`
padding tuple); resolved slots carry the assigned well's data. -/
theorem buildRow_cases (df : List WellRec) (u : Pulling) (hist : List Cand)
    (m : MatrixRow) (hm : buildRow df u hist = some m) :
    (hist = [] →
      m.n1 = ("N/A", 0, 1, 1) ∧ m.n2 = ("N/A", 0, 1, 1) ∧ m.n3 = ("N/A", 0, 1, 1))
    ∧ (∀ c1, hist = [c1] → m.n2 = ("N/A", 0, 1, 1) ∧ m.n3 = ("N/A", 0, 1, 1))
    ∧ (∀ c1 c2, hist = [c1, c2] → m.n3 = ("N/A", 0, 1, 1))
    ∧ (∀ c, hist.get? 0 = some c →
        m.n1 = (c.1, get_neta df c.1, c.2.1, c.2.2))
    ∧ (∀ c, hist.get? 1 = some c → m.n2 = (c.1, get_neta df c.1, c.2.1, c.2.2))
    ∧ (∀ c, hist.get? 2 = some c → m.n3 = (c.1, get_neta df c.1, c.2.1, c.2.2)) := by
  rcases hist with _ | ⟨c1, _ | ⟨c2, _ | ⟨c3, hrest⟩⟩⟩ <;>
    unfold buildRow at hm <;>
    rcases hra : findPozo df u.pozo with _ | ra <;> rw [hra] at hm <;>
    dsimp only at hm <;> cases hm
  · refine ⟨fun _ => ⟨?_, ?_, ?_⟩, ?_, ?_, ?_, ?_, ?_⟩
    · simp [naSentinel, get_neta_na]
    · simp [naSentinel, get_neta_na]
    · simp [naSentinel, get_neta_na]
    · intro a h
      simp at h
    · intro a b h
      simp at h
    · intro c hc
      simp at hc
    · intro c hc
      simp at hc
    · intro c hc
      simp at hc
  · refine ⟨?_, fun a h => ⟨?_, ?_⟩, ?_, ?_, ?_, ?_⟩
    · intro h
      simp at h
    · simp [naSentinel, get_neta_na]
    · simp [naSentinel, get_neta_na]
    · intro a b h
      simp at h
    · intro c hc
      simp only [List.get?] at hc
      cases hc
      simp [naSentinel]
    · intro c hc
      simp at hc
    · intro c hc
      simp at hc
  · refine ⟨?_, ?_, fun a b h => ?_, ?_, ?_, ?_⟩
    · intro h
      simp at h
    · intro a h
      simp at h
    · simp [naSentinel, get_neta_na]
    · intro c hc
      simp only [List.get?] at hc
      cases hc
      simp [naSentinel]
    · intro c hc
      simp only [List.get?] at hc
      cases hc
      simp [naSentinel]
    · intro c hc
      simp at hc
  · refine ⟨?_, ?_, ?_, ?_, ?_, ?_⟩
    · intro h
      simp at h
    · intro a h
      simp at h
    · intro a b h
      simp at h
    · intro c hc
      simp only [List.get?] at hc
      cases hc
      simp [naSentinel]
    · intro c hc
      simp only [List.get?] at hc
      cases hc
      simp [naSentinel]
    · intro c hc
      simp only [List.get?] at hc
      cases hc
      simp [naSentinel]

/-- C1 (amended): in every successful assignment run, a unit with fewer
than three assignments gets each unresolved slot — N+1, N+2 or N+3 alike —
padded with the sentinel well id `"N/A"`, net output `0`, coefficient `1`
and distance `1` (coefficient and distance carried from the
`("N/A", 1, 1)` padding tuple); resolved slots carry the assigned well's
data and are unaffected. -/
theorem C1_sentinel_amended (df : List WellRec) (geo : GeoFn) (lista : List Pulling)
    (disp : List String) (mat : List MatrixRow) (i : Nat) (hi : i < lista.length)
    (hrun : assign df geo lista disp = some mat) :
    ∃ s hist m, finalAsig df geo lista disp = some s
      ∧ hist = lookupAsig s.1 (lista.get ⟨i, hi⟩).name
      ∧ mat.get? i = some m
      ∧ (hist = [] →
          m.n1 = ("N/A", 0, 1, 1) ∧ m.n2 = ("N/A", 0, 1, 1) ∧ m.n3 = ("N/A", 0, 1, 1))
      ∧ (∀ c1, hist = [c1] → m.n2 = ("N/A", 0, 1, 1) ∧ m.n3 = ("N/A", 0, 1, 1))
      ∧ (∀ c1 c2, hist = [c1, c2] → m.n3 = ("N/A", 0, 1, 1))
      ∧ (∀ c, hist.get? 0 = some c →
          m.n1 = (c.1, get_neta df c.1, c.2.1, c.2.2))
      ∧ (∀ c, hist.get? 1 = some c → m.n2 = (c.1, get_neta df c.1, c.2.1, c.2.2))
      ∧ (∀ c, hist.get? 2 = some c → m.n3 = (c.1, get_neta df c.1, c.2.1, c.2.2)) := by
  unfold assign at hrun
  rcases hfs : finalAsig df geo lista disp with _ | s <;> rw [hfs] at hrun <;>
    simp only [Option.bind_eq_bind, Option.none_bind, Option.some_bind] at hrun
  · cases hrun
  · have hget := mapM_opt_get _ lista mat hrun i hi
    have hlen := mapM_opt_length _ lista mat hrun
    rcases hm : buildRow df (lista.get ⟨i, hi⟩)
        (lookupAsig s.1 (lista.get ⟨i, hi⟩).name) with _ | m
    · exfalso
      rw [hm] at hget
      have hsome : (mat.get? i).isSome := by
        rw [List.get?_eq_get (by rw [hlen]; exact hi)]
        rfl
      rw [hget] at hsome
      cases hsome
    · rw [hm] at hget
      have hcases := buildRow_cases df (lista.get ⟨i, hi⟩)
        (lookupAsig s.1 (lista.get ⟨i, hi⟩).name) m hm
      exact ⟨s, lookupAsig s.1 (lista.get ⟨i, hi⟩).name, m, rfl, rfl, hget,
        hcases.1, hcases.2.1, hcases.2.2.1, hcases.2.2.2.1, hcases.2.2.2.2.1,
        hcases.2.2.2.2.2⟩

unseal Rat.mul Rat.inv Rat.add Rat.sub in
/-- C1 counterexample: a unit that receives exactly one assignment has its
N+2 and N+3 slots marked `"N/A"`, but the slots hold `("N/A", 0, 1, 1)` —
coefficient 1 and distance 1 — not the claimed `("N/A", 0, 0, 0)`. -/
theorem C1_counterexample :
    ∃ m ∈ (assign dfE1 geoZero listaE1 ["B"]).getD [],
      m.n1.1 ≠ "N/A" ∧ m.n2.1 = "N/A" ∧ m.n3.1 = "N/A"
      ∧ m.n2 ≠ ("N/A", 0, 0, 0) ∧ m.n3 ≠ ("N/A", 0, 0, 0)
      ∧ m.n2 = ("N/A", 0, 1, 1) ∧ m.n3 = ("N/A", 0, 1, 1) := by
  decide

unseal Rat.mul Rat.inv Rat.add Rat.sub in
/-- C1 witness: the amended statement instantiated on a run with no
available wells, whose unit ends with no assignment — all three slots,
N+1 included, hold the `("N/A", 0, 1, 1)` sentinel. -/
theorem C1_witness :
    ∃ s hist m, finalAsig dfE1 geoZero listaE1 [] = some s
      ∧ hist = lookupAsig s.1 "Pulling 1"
      ∧ [({ pulling := "Pulling 1", pozoActual := "A", netaActual := 3,
            tiempoRestante := 0, n1 := ("N/A", 0, 1, 1), n2 := ("N/A", 0, 1, 1),
            n3 := ("N/A", 0, 1, 1) } : MatrixRow)].get? 0 = some m
      ∧ (hist = [] →
          m.n1 = ("N/A", 0, 1, 1) ∧ m.n2 = ("N/A", 0, 1, 1)
            ∧ m.n3 = ("N/A", 0, 1, 1)) := by
  rcases C1_sentinel_amended dfE1 geoZero listaE1 []
      [{ pulling := "Pulling 1", pozoActual := "A", netaActual := 3,
         tiempoRestante := 0, n1 := ("N/A", 0, 1, 1), n2 := ("N/A", 0, 1, 1),
         n3 := ("N/A", 0, 1, 1) }] 0 (by decide) rfl
    with ⟨s, hist, m, h1, h2, h3, h4, _⟩
  exact ⟨s, hist, m, h1, h2, h3, h4⟩

/-! ### C3: mutual exclusion of claimed wells. -/

/-- Unfolding of `allClaims` on a cons. -/
theorem allClaims_cons (e : String × List Cand) (t : AsigMap) :
    allClaims (e :: t) = e.2.map (fun c => c.1) ++ allClaims t := rfl

/-- Updating a key no entry carries is the identity. -/
theorem updateAsig_id (n : String) (best : Cand) (m : AsigMap)
    (h : ∀ e ∈ m, ¬ e.1 = n) : updateAsig m n best = m := by
  unfold updateAsig
  conv_rhs => rw [← List.map_id m]
  apply List.map_congr_left
  intro e he
  rw [if_neg (h e he)]
  rfl

/-- A claim of the updated dict is an old claim or the new assignment. -/
theorem mem_allClaims_update (n : String) (best : Cand) (p : String) :
    ∀ (m : AsigMap), p ∈ allClaims (updateAsig m n best) →
      p ∈ allClaims m ∨ p = best.1 := by
  intro m
  induction m with
  | nil =>
    intro hp
    cases hp
  | cons e t ih =>
    intro hp
    rw [updateAsig_cons, allClaims_cons] at hp
    rw [allClaims_cons]
    rcases List.mem_append.mp hp with h1 | h1
    · by_cases h : e.1 = n
      · rw [if_pos h] at h1
        rw [List.map_append] at h1
        rcases List.mem_append.mp h1 with h2 | h2
        · exact Or.inl (List.mem_append_left _ h2)
        · rcases List.mem_singleton.mp h2 with rfl
          exact Or.inr rfl
      · rw [if_neg h] at h1
        exact Or.inl (List.mem_append_left _ h1)
    · rcases ih h1 with h2 | h2
      · exact Or.inl (List.mem_append_right _ h2)
      · exact Or.inr h2

/-- Appending a fresh assignment to a dict with distinct keys keeps the
claims duplicate-free. -/
theorem allClaims_update_nodup (n : String) (best : Cand) :
    ∀ (m : AsigMap), (m.map (fun e => e.1)).Nodup → (allClaims m).Nodup →
      best.1 ∉ allClaims m → (allClaims (updateAsig m n best)).Nodup := by
  intro m
  induction m with
  | nil =>
    intro _ _ _
    exact List.nodup_nil
  | cons e t ih =>
    intro hnames hnd hnb
    rw [List.map_cons] at hnames
    have hnames2 := List.nodup_cons.mp hnames
    rw [allClaims_cons] at hnd hnb
    have hndApp := List.nodup_append.mp hnd
    rw [updateAsig_cons]
    by_cases h : e.1 = n
    · rw [if_pos h]
      have hupdid : updateAsig t n best = t := by
        apply updateAsig_id
        intro e' he' heq
        exact hnames2.1 (h ▸ heq ▸ List.mem_map_of_mem (fun e => e.1) he')
      rw [hupdid, allClaims_cons, List.map_append, List.append_assoc]
      refine List.nodup_append.mpr ⟨hndApp.1, ?_, ?_⟩
      · refine List.nodup_append.mpr ⟨List.nodup_singleton _, hndApp.2.1, ?_⟩
        intro x hx hx2
        rcases List.mem_singleton.mp hx with rfl
        exact hnb (List.mem_append_right _ hx2)
      · intro x hx hx2
        rcases List.mem_append.mp hx2 with h1 | h1
        · rcases List.mem_singleton.mp h1 with rfl
          exact hnb (List.mem_append_left _ hx)
        · exact hndApp.2.2 hx h1
    · rw [if_neg h, allClaims_cons]
      refine List.nodup_append.mpr ⟨hndApp.1, ?_, ?_⟩
      · exact ih hnames2.2 hndApp.2.1 (fun hc => hnb (List.mem_append_right _ hc))
      · intro x hx hx2
        rcases mem_allClaims_update n best x t hx2 with h1 | rfl
        · exact hndApp.2.2 hx h1
        · exact hnb (List.mem_append_left _ hx)

/-- The initial dict has no claims. -/
theorem allClaims_init (lista : List Pulling) : allClaims (initAsig lista) = [] := by
  unfold allClaims initAsig
  rw [List.map_map]
  refine List.flatten_eq_nil_iff.mpr ?_
  intro l hl
  rcases List.mem_map.mp hl with ⟨u, _, rfl⟩
  rfl

/-- The initial dict's keys are the unit names. -/
theorem initAsig_names (lista : List Pulling) :
    (initAsig lista).map (fun e => e.1) = lista.map (fun u => u.name) := by
  unfold initAsig
  rw [List.map_map]
  rfl

/-- One unit's step preserves the in-round engine invariant. -/
theorem stepPulling_inv (df : List WellRec) (geo : GeoFn) (u : Pulling)
    (st st' : EngState) (h : stepPulling df geo st u = some st')
    (hP : engStateInv st) : engStateInv st' := by
  unfold stepPulling at h
  rcases hco : candsOf df geo (refWell st.1 u) st.2.2 with _ | cands <;>
    rw [hco] at h <;> dsimp only at h
  · cases h
  · rcases hsort : List.insertionSort candLE cands with _ | ⟨best, rest⟩ <;>
      rw [hsort] at h <;> dsimp only at h
    · cases h
      exact hP
    · cases h
      obtain ⟨hnd, hsub, hpool, hdisj, hnames⟩ := hP
      have hbestmem : best.1 ∈ st.2.2 := by
        have hfst := candsOf_map_fst df geo _ _ _ hco
        have hbm := (insertionSort_head_min cands best rest hsort).1
        rw [← hfst]
        exact List.mem_map_of_mem _ hbm
      have hbnotocc : best.1 ∉ st.2.1 := hdisj best.1 hbestmem
      have hbnotclaims : best.1 ∉ allClaims st.1 := fun hc => hbnotocc (hsub best.1 hc)
      refine ⟨?_, ?_, ?_, ?_, ?_⟩
      · exact allClaims_update_nodup u.name best st.1 hnames hnd hbnotclaims
      · intro p hp
        rcases mem_allClaims_update u.name best p st.1 hp with h1 | rfl
        · exact List.mem_cons_of_mem _ (hsub p h1)
        · exact List.mem_cons_self _ _
      · exact List.Nodup.sublist (List.erase_sublist best.1 st.2.2) hpool
      · intro p hp
        have hmem := (List.Nodup.mem_erase_iff hpool).mp hp
        intro hocc
        rcases List.mem_cons.mp hocc with h1 | h1
        · exact hmem.1 h1
        · exact hdisj p hmem.2 h1
      · rw [updateAsig_names]
        exact hnames

/-- One round preserves the between-round engine invariant. -/
theorem asignar_pozos_inv (df : List WellRec) (geo : GeoFn) (lista : List Pulling)
    (disp : List String) (hdisp : disp.Nodup) (a a' : AsigMap × List String)
    (h : asignar_pozos df geo lista disp a = some a') (hQ : engInv a) : engInv a' := by
  unfold asignar_pozos at h
  rcases hfold : lista.foldlM (stepPulling df geo)
      (a.1, a.2, disp.filter (fun p => decide (p ∉ a.2))) with _ | st <;>
    rw [hfold] at h <;> simp only [Option.map_none', Option.map_some'] at h
  · cases h
  · cases h
    have hinit : engStateInv (a.1, a.2, disp.filter (fun p => decide (p ∉ a.2))) := by
      obtain ⟨h1, h2, h3⟩ := hQ
      refine ⟨h1, h2, List.Nodup.filter _ hdisp, ?_, h3⟩
      intro p hp
      exact of_decide_eq_true (List.mem_filter.mp hp).2
    have hfin := foldlM_opt_inv (stepPulling df geo) engStateInv lista
      (fun u _ x y hx hxy => stepPulling_inv df geo u x y hxy hx) _ _ hinit hfold
    exact ⟨hfin.1, fun p hp => hfin.2.1 p hp, hfin.2.2.2.2⟩

/-- C3: across the three rounds of one run, with distinct unit names and
a duplicate-free available pool, the claimed well ids — across all units
and rounds — are pairwise distinct: once claimed, a well is occupied and
removed, so no two (unit, round) selections name the same well. -/
theorem C3_no_double_assignment (df : List WellRec) (geo : GeoFn) (lista : List Pulling)
    (disp : List String) (hnames : (lista.map (fun u => u.name)).Nodup)
    (hdisp : disp.Nodup) (s : AsigMap × List String)
    (h : finalAsig df geo lista disp = some s) :
    (allClaims s.1).Nodup := by
  unfold finalAsig at h
  rcases h1 : asignar_pozos df geo lista disp (initAsig lista, []) with _ | s1 <;>
    rw [h1] at h <;>
    simp only [Option.bind_eq_bind, Option.none_bind, Option.some_bind] at h
  · cases h
  · rcases h2 : asignar_pozos df geo lista disp s1 with _ | s2 <;>
      rw [h2] at h <;>
      simp only [Option.bind_eq_bind, Option.none_bind, Option.some_bind] at h
    · cases h
    · have hQ0 : engInv (initAsig lista, []) := by
        refine ⟨?_, ?_, ?_⟩
        · rw [allClaims_init]
          exact List.nodup_nil
        · intro p hp
          rw [allClaims_init] at hp
          cases hp
        · rw [initAsig_names]
          exact hnames
      have hQ1 := asignar_pozos_inv df geo lista disp hdisp _ _ h1 hQ0
      have hQ2 := asignar_pozos_inv df geo lista disp hdisp _ _ h2 hQ1
      exact (asignar_pozos_inv df geo lista disp hdisp _ _ h hQ2).1

unseal Rat.mul Rat.inv Rat.add Rat.sub in
/-- C3 witness: the one-unit run claims exactly `["B"]`, duplicate-free. -/
theorem C3_witness :
    (listaE1.map (fun u => u.name)).Nodup ∧ (["B"] : List String).Nodup
    ∧ (allClaims [("Pulling 1", [("B", 2, 0)])]).Nodup :=
  ⟨by decide, by decide,
   C3_no_double_assignment dfE1 geoZero listaE1 ["B"] (by decide) (by decide)
     ([("Pulling 1", [("B", 2, 0)])], ["B"]) rfl⟩

/-! ### C10: the unguarded `.iloc[0]` lookups. -/

/-- A present well makes the first-row selection succeed. -/
theorem findPozo_isSome_of_present (df : List WellRec) (p : String)
    (hp : presentIn df p) : (findPozo df p).isSome := by
  rcases hp with ⟨r, hr, hrp⟩
  unfold findPozo
  exact List.find?_isSome.mpr ⟨r, hr, by simp [hrp]⟩

/-- A successful first-row selection means the well is present. -/
theorem present_of_findPozo_isSome (df : List WellRec) (p : String)
    (h : (findPozo df p).isSome) : presentIn df p := by
  unfold findPozo at h
  rcases List.find?_isSome.mp h with ⟨r, hr, hp⟩
  exact ⟨r, hr, of_decide_eq_true hp⟩

/-- The per-candidate computation succeeds on present wells. -/
theorem calcular_isSome (df : List WellRec) (geo : GeoFn) (ref cand : String)
    (h1 : presentIn df ref) (h2 : presentIn df cand) :
    (calcular_coeficiente df geo ref cand).isSome := by
  unfold calcular_coeficiente
  rcases Option.isSome_iff_exists.mp (findPozo_isSome_of_present df ref h1) with ⟨r1, hr1⟩
  rcases Option.isSome_iff_exists.mp (findPozo_isSome_of_present df cand h2) with ⟨r2, hr2⟩
  rw [hr1, hr2]
  rfl

/-- A successful per-candidate computation means both wells are present. -/
theorem calcular_isSome_inv (df : List WellRec) (geo : GeoFn) (ref cand : String)
    (h : (calcular_coeficiente df geo ref cand).isSome) :
    presentIn df ref ∧ presentIn df cand := by
  unfold calcular_coeficiente at h
  rcases hr1 : findPozo df ref with _ | r1 <;>
    rcases hr2 : findPozo df cand with _ | r2 <;>
    rw [hr1, hr2] at h <;> dsimp only at h
  · cases h
  · cases h
  · cases h
  · exact ⟨present_of_findPozo_isSome df ref (by rw [hr1]; rfl),
      present_of_findPozo_isSome df cand (by rw [hr2]; rfl)⟩

/-- The candidate list succeeds on a present reference and pool. -/
theorem candsOf_isSome (df : List WellRec) (geo : GeoFn) (ref : String)
    (pool : List String) (h1 : presentIn df ref) (h2 : ∀ p ∈ pool, presentIn df p) :
    (candsOf df geo ref pool).isSome := by
  unfold candsOf
  apply mapM_opt_isSome
  intro p hp
  rw [Option.isSome_map']
  exact calcular_isSome df geo ref p h1 (h2 p hp)

/-- A history entry read from the dict belongs to some dict entry. -/
theorem lookupAsig_mem (m : AsigMap) (n : String) (c : Cand)
    (hc : c ∈ lookupAsig m n) : ∃ e ∈ m, c ∈ e.2 := by
  unfold lookupAsig at hc
  rcases hfind : m.find? (fun e => decide (e.1 = n)) with _ | e <;> rw [hfind] at hc
  · cases hc
  · exact ⟨e, List.mem_of_find?_eq_some hfind, hc⟩

/-- One unit's step succeeds, and preserves presence of the pool and of
the claims, whenever the unit's well, the pool and the previous claims
are all present in the dataset. -/
theorem stepPulling_total (df : List WellRec) (geo : GeoFn) (u : Pulling) (st : EngState)
    (hu : presentIn df u.pozo)
    (hpool : ∀ p ∈ st.2.2, presentIn df p)
    (hclaims : ∀ e ∈ st.1, ∀ c ∈ e.2, presentIn df c.1) :
    ∃ st', stepPulling df geo st u = some st'
      ∧ (∀ p ∈ st'.2.2, presentIn df p)
      ∧ (∀ e ∈ st'.1, ∀ c ∈ e.2, presentIn df c.1) := by
  have href : presentIn df (refWell st.1 u) := by
    unfold refWell
    rcases hlast : (lookupAsig st.1 u.name).getLast? with _ | c
    · exact hu
    · have hcm := List.mem_of_getLast?_eq_some hlast
      rcases lookupAsig_mem st.1 u.name c hcm with ⟨e, he, hce⟩
      exact hclaims e he c hce
  rcases Option.isSome_iff_exists.mp (candsOf_isSome df geo _ st.2.2 href hpool)
    with ⟨cands, hco⟩
  unfold stepPulling
  rw [hco]
  dsimp only
  rcases hsort : List.insertionSort candLE cands with _ | ⟨best, rest⟩
  · exact ⟨st, rfl, hpool, hclaims⟩
  · have hbestp : presentIn df best.1 := by
      have hfst := candsOf_map_fst df geo _ _ _ hco
      have hbm := (insertionSort_head_min cands best rest hsort).1
      exact hpool best.1 (by rw [← hfst]; exact List.mem_map_of_mem _ hbm)
    refine ⟨_, rfl, ?_, ?_⟩
    · intro p hp
      exact hpool p (List.erase_subset _ _ hp)
    · intro e he c hc
      unfold updateAsig at he
      rcases List.mem_map.mp he with ⟨e0, he0, rfl⟩
      by_cases h : e0.1 = u.name
      · rw [if_pos h] at hc
        rcases List.mem_append.mp hc with h1 | h1
        · exact hclaims e0 he0 c h1
        · rcases List.mem_singleton.mp h1 with rfl
          exact hbestp
      · rw [if_neg h] at hc
        exact hclaims e0 he0 c hc

/-- One round succeeds on present wells and keeps all claims present. -/
theorem asignar_pozos_total (df : List WellRec) (geo : GeoFn) (lista : List Pulling)
    (disp : List String) (hcur : ∀ u ∈ lista, presentIn df u.pozo)
    (hdisp : ∀ p ∈ disp, presentIn df p) (a : AsigMap × List String)
    (hclaims : ∀ e ∈ a.1, ∀ c ∈ e.2, presentIn df c.1) :
    ∃ a', asignar_pozos df geo lista disp a = some a'
      ∧ ∀ e ∈ a'.1, ∀ c ∈ e.2, presentIn df c.1 := by
  have hsteps : ∀ u ∈ lista, ∀ st : EngState,
      ((∀ p ∈ st.2.2, presentIn df p) ∧ (∀ e ∈ st.1, ∀ c ∈ e.2, presentIn df c.1)) →
      ∃ st', stepPulling df geo st u = some st'
        ∧ ((∀ p ∈ st'.2.2, presentIn df p)
          ∧ (∀ e ∈ st'.1, ∀ c ∈ e.2, presentIn df c.1)) := by
    intro u hu st hP
    rcases stepPulling_total df geo u st (hcur u hu) hP.1 hP.2 with ⟨st', h1, h2, h3⟩
    exact ⟨st', h1, h2, h3⟩
  have hinit : (∀ p ∈ disp.filter (fun p => decide (p ∉ a.2)), presentIn df p)
      ∧ (∀ e ∈ a.1, ∀ c ∈ e.2, presentIn df c.1) :=
    ⟨fun p hp => hdisp p (List.mem_of_mem_filter hp), hclaims⟩
  rcases foldlM_opt_total (stepPulling df geo)
      (fun st => (∀ p ∈ st.2.2, presentIn df p)
        ∧ (∀ e ∈ st.1, ∀ c ∈ e.2, presentIn df c.1))
      lista hsteps (a.1, a.2, disp.filter (fun p => decide (p ∉ a.2))) hinit
    with ⟨st, hst, hP⟩
  refine ⟨(st.1, st.2.1), ?_, hP.2⟩
  unfold asignar_pozos
  rw [hst]
  rfl

/-- The matrix row of a unit whose well is present always builds. -/
theorem buildRow_isSome (df : List WellRec) (u : Pulling) (hist : List Cand)
    (h : presentIn df u.pozo) : (buildRow df u hist).isSome := by
  unfold buildRow
  rcases Option.isSome_iff_exists.mp (findPozo_isSome_of_present df u.pozo h) with ⟨ra, hra⟩
  rw [hra]
  rfl

/-- A built matrix row means the unit's well is present. -/
theorem present_of_buildRow_isSome (df : List WellRec) (u : Pulling) (hist : List Cand)
    (h : (buildRow df u hist).isSome) : presentIn df u.pozo := by
  unfold buildRow at h
  rcases hra : findPozo df u.pozo with _ | ra <;> rw [hra] at h
  · cases h
  · exact present_of_findPozo_isSome df u.pozo (by rw [hra]; rfl)

/-- C10: every per-candidate computation and every matrix-row lookup is an
unguarded first-row selection; when each unit's current well and each pool
well occurs in the finalized dataset the whole run succeeds, whereas (with
at least one unit) a successful run forces exactly that precondition — a
current or pool well absent from the dataset makes the run produce no
matrix. -/
theorem C10_unguarded_first_row_lookups (df : List WellRec) (geo : GeoFn)
    (lista : List Pulling) (disp : List String) :
    ((∀ u ∈ lista, presentIn df u.pozo) → (∀ p ∈ disp, presentIn df p) →
      (assign df geo lista disp).isSome)
    ∧ (∀ u0 rest mat, lista = u0 :: rest → assign df geo lista disp = some mat →
      (∀ v ∈ lista, presentIn df v.pozo) ∧ (∀ p ∈ disp, presentIn df p)) := by
  constructor
  · intro hcur hdisp
    have h0 : ∀ e ∈ initAsig lista, ∀ c ∈ e.2, presentIn df c.1 := by
      intro e he c hc
      unfold initAsig at he
      rcases List.mem_map.mp he with ⟨u, _, rfl⟩
      cases hc
    rcases asignar_pozos_total df geo lista disp hcur hdisp (initAsig lista, []) h0
      with ⟨a1, h1, hc1⟩
    rcases asignar_pozos_total df geo lista disp hcur hdisp a1 hc1 with ⟨a2, h2, hc2⟩
    rcases asignar_pozos_total df geo lista disp hcur hdisp a2 hc2 with ⟨a3, h3, _⟩
    have hfs : finalAsig df geo lista disp = some a3 := by
      unfold finalAsig
      rw [h1]
      simp only [Option.bind_eq_bind, Option.some_bind]
      rw [h2]
      simp only [Option.bind_eq_bind, Option.some_bind]
      exact h3
    unfold assign
    rw [hfs]
    simp only [Option.bind_eq_bind, Option.some_bind]
    apply mapM_opt_isSome
    intro u hu
    exact buildRow_isSome df u _ (hcur u hu)
  · intro u0 rest mat hlist hrun
    subst hlist
    unfold assign at hrun
    rcases hfs : finalAsig df geo (u0 :: rest) disp with _ | s <;> rw [hfs] at hrun <;>
      simp only [Option.bind_eq_bind, Option.none_bind, Option.some_bind] at hrun
    · cases hrun
    · constructor
      · intro v hv
        have hsome := mapM_opt_forall _ (u0 :: rest) mat hrun v hv
        exact present_of_buildRow_isSome df v _ hsome
      · unfold finalAsig at hfs
        rcases h1 : asignar_pozos df geo (u0 :: rest) disp (initAsig (u0 :: rest), [])
            with _ | a1 <;> rw [h1] at hfs <;>
          simp only [Option.bind_eq_bind, Option.none_bind, Option.some_bind] at hfs
        · cases hfs
        · unfold asignar_pozos at h1
          rcases hfold : (u0 :: rest).foldlM (stepPulling df geo)
              (initAsig (u0 :: rest), [],
                disp.filter (fun p => decide (p ∉ ([] : List String)))) with _ | st <;>
            rw [hfold] at h1 <;> simp only [Option.map_none', Option.map_some'] at h1
          · cases h1
          · rcases foldlM_opt_first _ u0 rest _ st hfold with ⟨st1, hstep, _⟩
            unfold stepPulling at hstep
            dsimp only at hstep
            rcases hco : candsOf df geo (refWell (initAsig (u0 :: rest)) u0)
                (disp.filter (fun p => decide (p ∉ ([] : List String)))) with _ | cands <;>
              rw [hco] at hstep <;> dsimp only at hstep
            · cases hstep
            · intro p hp
              have hpf : p ∈ disp.filter (fun p => decide (p ∉ ([] : List String))) :=
                List.mem_filter.mpr ⟨hp, by simp⟩
              have hall := mapM_opt_forall _ _ cands hco p hpf
              rw [Option.isSome_map'] at hall
              exact (calcular_isSome_inv df geo _ p hall).2

unseal Rat.mul Rat.inv Rat.add Rat.sub in
/-- C10 witness: on the two-well dataset with its unit and pool present,
the run succeeds and produces a matrix. -/
theorem C10_witness :
    (∀ u ∈ listaE1, presentIn dfE1 u.pozo) ∧ (∀ p ∈ (["B"] : List String), presentIn dfE1 p)
    ∧ (assign dfE1 geoZero listaE1 ["B"]).isSome := by
  have h1 : ∀ u ∈ listaE1, presentIn dfE1 u.pozo := by
    intro u hu
    rcases List.mem_singleton.mp hu with rfl
    exact ⟨⟨"A", 3, 1, 0, 0⟩, by decide, rfl⟩
  have h2 : ∀ p ∈ (["B"] : List String), presentIn dfE1 p := by
    intro p hp
    rcases List.mem_singleton.mp hp with rfl
    exact ⟨⟨"B", 2, 1, 1, 0⟩, by decide, rfl⟩
  exact ⟨h1, h2, (C10_unguarded_first_row_lookups dfE1 geoZero listaE1 ["B"]).1 h1 h2⟩

end PullingApp
